import Mathlib

/-!
# TrackRecord — shallow embedding and verification of the data-management core

This file embeds the data-management core of the TrackRecord web application
(CSV codec, query engine, GitHub remote-store client) as executable Lean
definitions, translated from `assets/js/utils.js`, `assets/js/github-api.js`,
the application controller (`TrackRecordApp`) and `config.js`, and proves or
refutes the specification's claims about them.

JavaScript strings are modelled as Lean `String`s (sequences of code points);
JavaScript objects holding records are modelled as association lists in key
insertion order.  Browser builtins used by the code (`String.prototype.trim`,
`split`, `toLowerCase`, `includes`, `btoa`/`atob`) are given faithful
executable models below.  The GitHub REST API is external to the repository
and is modelled from the specification's external-interface contract.
-/

set_option maxRecDepth 10000

namespace TrackRecord

/-- A JavaScript object holding string-valued fields, as an association list
in key insertion order (JS objects preserve first-insertion key order; a
repeated assignment overwrites the value in place, see `objSet`). -/
abbrev Obj := List (String × String)

/-- The set of characters removed by JavaScript `String.prototype.trim`
(WhiteSpace and LineTerminator code points). -/
def jsWhitespace (c : Char) : Bool :=
  c == ' ' || c == '\t' || c == '\n' || c == '\r' ||
  c == '\u000B' || c == '\u000C' || c == '\u00A0' || c == '\u1680' ||
  (0x2000 ≤ c.toNat && c.toNat ≤ 0x200A) ||
  c == '\u2028' || c == '\u2029' || c == '\u202F' || c == '\u205F' ||
  c == '\u3000' || c == '\uFEFF'

/-- Drop a trailing run of whitespace (the second half of `trim`). -/
def trimBack (cs : List Char) : List Char :=
  ((cs.reverse).dropWhile jsWhitespace).reverse

/-- `String.prototype.trim` on the character list: drop the leading and the
trailing whitespace run. -/
def trimAux (cs : List Char) : List Char :=
  trimBack (cs.dropWhile jsWhitespace)

/-- Model of JavaScript `String.prototype.trim`. -/
def jsTrim (s : String) : String := ⟨trimAux s.data⟩

/-- Model of JavaScript `String.prototype.split` with a one-character
separator: `"".split(c) = [""]`, separators delimit (possibly empty) parts. -/
def splitOnChar (sep : Char) : List Char → List (List Char)
  | [] => [[]]
  | c :: cs =>
    if c == sep then [] :: splitOnChar sep cs
    else
      match splitOnChar sep cs with
      | [] => [[c]]
      | p :: ps => (c :: p) :: ps

/-- `Array.prototype.join` with a one-character separator. -/
def joinSep (sep : Char) : List (List Char) → List Char
  | [] => []
  | [p] => p
  | p :: ps => p ++ sep :: joinSep sep ps

/-- Model of JavaScript `String.prototype.toLowerCase` (ASCII range; the
record data and search terms handled by the application are ASCII). -/
def jsToLower (s : String) : String := ⟨s.data.map Char.toLower⟩

/-- Does the first list start with the second? -/
def leadsWith : List Char → List Char → Bool
  | _, [] => true
  | [], _ :: _ => false
  | c :: cs, d :: ds => c == d && leadsWith cs ds

/-- Does the first list contain the second as a contiguous run? -/
def containsRun (hay sub : List Char) : Bool :=
  leadsWith hay sub ||
    match hay with
    | [] => false
    | _ :: t => containsRun t sub

/-- Model of JavaScript `String.prototype.includes`: substring containment. -/
def jsIncludes (s sub : String) : Bool := containsRun s.data sub.data

/-- `APP_CONFIG.CSV_HEADERS` from `config.js`: the canonical 10-column header. -/
def CSV_HEADERS : List String :=
  ["Date", "Context", "Project/Task", "Skills & Tools", "Outcome/Deliverable",
   "Time Spent", "Key Learnings/Challenges", "Next Steps", "Status", "Tags"]

/-- `APP_CONFIG.CSV_HEADERS.join(",")`: the canonical header line. -/
def headerLine : String := ⟨joinSep ',' (CSV_HEADERS.map String.data)⟩

/-- The loop body of `Utils.parseCSVLine` (`utils.js` lines 271–291): walk the
characters with a current-field accumulator and an in-quotes flag; a quote
toggles the flag (and is dropped), a comma outside quotes ends the current
field, every other character is appended; each finished field is trimmed. -/
def parseAux : List Char → List Char → Bool → List String
  | [], cur, _ => [jsTrim ⟨cur⟩]
  | ch :: rest, cur, inQuotes =>
    if ch == '"' then parseAux rest cur (!inQuotes)
    else if ch == ',' && !inQuotes then jsTrim ⟨cur⟩ :: parseAux rest [] false
    else parseAux rest (cur ++ [ch]) inQuotes

/-- `Utils.parseCSVLine`. -/
def parseCSVLine (line : String) : List String := parseAux line.data [] false

/-- A single JS object property assignment `obj[k] = v`: overwrite in place if
the key exists, else append (JS objects keep first-insertion key order and the
last written value). -/
def objSet : Obj → String → String → Obj
  | [], k, v => [(k, v)]
  | (k', v') :: rest, k, v =>
    if k' == k then (k', v) :: rest else (k', v') :: objSet rest k v

/-- The record-building loop of `Utils.csvToArray`:
`headers.forEach((header, index) => { obj[header] = values[index] || ""; })`. -/
def buildObj (headers values : List String) : Obj :=
  headers.enum.foldl (fun o p => objSet o p.2 (values.getD p.1 "")) []

/-- JS property read `item[field]` (`undefined` for a missing key). -/
def jsFind (o : Obj) (k : String) : Option String :=
  (o.find? (fun p => p.1 == k)).map (·.2)

/-- JS `row[header] || ""`: a missing key and the empty string both give `""`. -/
def jsGetD (o : Obj) (k : String) : String := (jsFind o k).getD ""

/-- The lines of the trimmed CSV text (`csvString.trim().split("\n")`). -/
def csvLinesOf (csvString : String) : List String :=
  (splitOnChar '\n' (jsTrim csvString).data).map (fun cs => (⟨cs⟩ : String))

/-- The header names parsed by `Utils.csvToArray`:
`lines[0].split(",").map((header) => header.trim())`. -/
def csvHeadersOf (csvString : String) : List String :=
  ((splitOnChar ',' ((csvLinesOf csvString).headD "").data).map
    (fun cs => (⟨cs⟩ : String))).map jsTrim

/-- `Utils.csvToArray` (`utils.js` lines 236–264): empty/blank input gives
`[]`; otherwise the first line of the trimmed text is the header row, each
later non-blank line is parsed by `parseCSVLine` and mapped positionally onto
the header names (short rows default trailing fields to `""`). -/
def csvToArray (csvString : String) : List Obj :=
  if jsTrim csvString == "" then []
  else
    ((csvLinesOf csvString).drop 1).filterMap (fun line =>
      if jsTrim line == "" then none
      else some (buildObj (csvHeadersOf csvString) (parseCSVLine line)))

/-- `value.toString().replace(/"/g, '""')` in `Utils.arrayToCSV`. -/
def escapeQuotes (v : String) : String :=
  ⟨v.data.flatMap (fun c => if c == '"' then ['"', '"'] else [c])⟩

/-- One encoded field of `Utils.arrayToCSV`: double the double quotes and wrap
in quotes when the escaped value contains a comma or a newline. -/
def encodeField (v : String) : String :=
  let escaped := escapeQuotes v
  if escaped.data.contains ',' || escaped.data.contains '\n' then
    "\"" ++ escaped ++ "\""
  else escaped

/-- One encoded data row of `Utils.arrayToCSV`:
`headers.map((header) => ...).join(",")`. -/
def rowLine (row : Obj) : List Char :=
  joinSep ',' (CSV_HEADERS.map (fun h => (encodeField (jsGetD row h)).data))

/-- `Utils.arrayToCSV` (`utils.js` lines 298–324): empty input gives the
header line plus `"\n"`; otherwise the header line and one row per record,
joined with `"\n"` (no trailing newline). -/
def arrayToCSV (data : List Obj) : String :=
  if data.isEmpty then headerLine ++ "\n"
  else ⟨joinSep '\n' (headerLine.data :: data.map rowLine)⟩

/-! ## Query engine: search, field filters, sort, pagination (`utils.js`,
`TrackRecordApp` in the application controller) -/

/-- The fixed free-text fields searched by `TrackRecordApp.applyFilters`. -/
def SEARCH_FIELDS : List String :=
  ["Context", "Project/Task", "Skills & Tools", "Outcome/Deliverable",
   "Tags", "Key Learnings/Challenges"]

/-- The per-field test of `Utils.filterArray`:
`value && value.toString().toLowerCase().includes(term)` (a missing or empty
field never matches). -/
def searchMatch (term : String) (item : Obj) (field : String) : Bool :=
  match jsFind item field with
  | none => false
  | some v => !(v == "") && jsIncludes (jsToLower v) term

/-- `Utils.filterArray` (`utils.js` lines 394–406): a blank search term keeps
everything; otherwise the term is lowercased and trimmed and a record is kept
when some search field contains it. -/
def filterArray (array : List Obj) (searchTerm : String)
    (searchFields : List String) : List Obj :=
  if jsTrim searchTerm == "" then array
  else
    let term := jsTrim (jsToLower searchTerm)
    array.filter (fun item => searchFields.any (fun field => searchMatch term item field))

/-- One field-filter pass of `TrackRecordApp.applyFilters`: a falsy filter
value keeps everything; the `"date"` filter requires strict equality of
`record[field]` with the value, any other filter requires case-insensitive
containment (note the lookup uses the lowercase filter key, not a CSV header
name). -/
def fieldFilterStep (field value : String) (records : List Obj) : List Obj :=
  if value == "" then records
  else
    records.filter (fun record =>
      match jsFind record field with
      | none => false
      | some rv =>
        if field == "date" then rv == value
        else !(rv == "") && jsIncludes (jsToLower rv) (jsToLower value))

/-- Modelled builtin: `new Date(s).getTime()` restricted to the ISO
`YYYY-MM-DD` dates the application stores; other strings give an invalid date
(`none`, JS `NaN`).  The encoding `y*512 + m*32 + d` is strictly monotone in
the calendar order, which is all the sort comparator observes. -/
def jsDateNum (s : String) : Option Nat :=
  let dv : Char → Option Nat := fun c =>
    if '0' ≤ c && c ≤ '9' then some (c.toNat - '0'.toNat) else none
  match s.data with
  | [y1, y2, y3, y4, '-', m1, m2, '-', d1, d2] => do
    let a ← dv y1; let b ← dv y2; let c ← dv y3; let d ← dv y4
    let e ← dv m1; let f ← dv m2; let g ← dv d1; let h ← dv d2
    let y := ((a * 10 + b) * 10 + c) * 10 + d
    let m := e * 10 + f
    let dd := g * 10 + h
    if 1 ≤ m && m ≤ 12 && 1 ≤ dd && dd ≤ 31 then some (y * 512 + m * 32 + dd)
    else none
  | _ => none

/-- JS `>` on two `Date` values: false when either is invalid (`NaN`). -/
def dateGT (a b : Option Nat) : Bool :=
  match a, b with
  | some x, some y => decide (y < x)
  | _, _ => false

/-- JS `<` on two `Date` values: false when either is invalid (`NaN`). -/
def dateLT (a b : Option Nat) : Bool :=
  match a, b with
  | some x, some y => decide (x < y)
  | _, _ => false

/-- The comparator of `Utils.sortArray` (`utils.js` lines 415–436): the
`"Date"` field compares as dates, all other fields as lowercased strings;
returns `1` or `-1` (never `0`). -/
def sortCmp (field direction : String) (a b : Obj) : Int :=
  let aS := jsGetD a field
  let bS := jsGetD b field
  if field == "Date" then
    let av := jsDateNum aS
    let bv := jsDateNum bS
    if direction == "asc" then (if dateGT av bv then 1 else -1)
    else (if dateLT av bv then 1 else -1)
  else
    let av := jsToLower aS
    let bv := jsToLower bS
    if direction == "asc" then (if decide (bv < av) then 1 else -1)
    else (if decide (av < bv) then 1 else -1)

/-- Insert into a sorted list, keeping earlier elements first on ties. -/
def insertCmp (le : Obj → Obj → Bool) (x : Obj) : List Obj → List Obj
  | [] => [x]
  | y :: ys => if le x y then x :: y :: ys else y :: insertCmp le x ys

/-- `Utils.sortArray`: `[...array].sort(comparator)`, modelled as a
comparison sort placing `a` before `b` when the comparator does not order
`b` strictly first (element order beyond the comparator's verdicts is not
relied upon by any theorem below). -/
def sortArray (array : List Obj) (field direction : String) : List Obj :=
  array.foldr (insertCmp (fun a b => decide (sortCmp field direction a b ≤ 0))) []

/-- The view state owned by `TrackRecordApp` (the application controller with
pagination): backing records, derived filtered records, the three
`currentFilters` slots (`status` / `project` / `date`, absent keys modelled
as `""` — `Object.entries` skips with the same effect since both are falsy),
search term, sort field and direction, current page and page size. -/
structure AppState where
  trackRecords : List Obj
  filteredRecords : List Obj
  statusFilter : String
  projectFilter : String
  dateFilter : String
  searchTerm : String
  sortField : String
  sortDirection : String
  currentPage : Nat
  pageSize : Nat
deriving DecidableEq

/-- The filtered+sorted view recomputed by `TrackRecordApp.applyFilters`
(lines 328–366 of the controller): search, then the three field filters in
key insertion order, then sort. -/
def applyFiltersList (s : AppState) : List Obj :=
  let f0 := s.trackRecords
  let f1 := if !(s.searchTerm == "") then filterArray f0 s.searchTerm SEARCH_FIELDS else f0
  let f2 := fieldFilterStep "status" s.statusFilter f1
  let f3 := fieldFilterStep "project" s.projectFilter f2
  let f4 := fieldFilterStep "date" s.dateFilter f3
  sortArray f4 s.sortField s.sortDirection

/-- `TrackRecordApp.applyFilters`: store the recomputed view (rendering and
count updates touch only the DOM). -/
def applyFilters (s : AppState) : AppState :=
  { s with filteredRecords := applyFiltersList s }

/-- The search-input handler: set `searchTerm`, re-apply filters. -/
def onSearchInput (s : AppState) (v : String) : AppState :=
  applyFilters { s with searchTerm := v }

/-- The status-filter change handler: set `currentFilters.status`, re-apply. -/
def onStatusFilterChange (s : AppState) (v : String) : AppState :=
  applyFilters { s with statusFilter := v }

/-- The project-filter change handler: set `currentFilters.project`, re-apply. -/
def onProjectFilterChange (s : AppState) (v : String) : AppState :=
  applyFilters { s with projectFilter := v }

/-- The date-filter change handler: set `currentFilters.date`, re-apply. -/
def onDateFilterChange (s : AppState) (v : String) : AppState :=
  applyFilters { s with dateFilter := v }

/-- `TrackRecordApp.sortByField` (lines 398–407): clicking the current sort
field toggles the direction, a new field sorts descending; then re-apply. -/
def sortByField (s : AppState) (field : String) : AppState :=
  applyFilters
    (if s.sortField == field then
      { s with sortDirection := if s.sortDirection == "asc" then "desc" else "asc" }
    else { s with sortField := field, sortDirection := "desc" })

/-- The page-size change handler (controller lines 1051–1056):
`this.pageSize = parseInt(...); this.currentPage = 1;` then re-render only. -/
def onPageSizeChange (s : AppState) (newSize : Nat) : AppState :=
  { s with pageSize := newSize, currentPage := 1 }

/-- `TrackRecordApp.goToPage`. -/
def goToPage (s : AppState) (page : Nat) : AppState :=
  { s with currentPage := page }

/-- `TrackRecordApp.getPaginatedData`: `filteredRecords.slice(start, end)`. -/
def getPaginatedData (s : AppState) : List Obj :=
  (s.filteredRecords.drop ((s.currentPage - 1) * s.pageSize)).take s.pageSize

/-! ## Transport encoding: the browser builtins `btoa` / `atob` -/

/-- The base64 alphabet. -/
def b64Alphabet : List Char :=
  "ABCDEFGHIJKLMNOPQRSTUVWXYZabcdefghijklmnopqrstuvwxyz0123456789+/".data

/-- The base64 digit for a sextet. -/
def sextetChar (n : Nat) : Char := b64Alphabet.getD n 'A'

/-- The sextet of a base64 digit (64 for a character outside the alphabet). -/
def charSextet (c : Char) : Nat := (b64Alphabet.findIdx? (· == c)).getD 64

/-- Base64-encode a byte list, with `=` padding. -/
def encB64 : List Nat → List Char
  | [] => []
  | [a] => [sextetChar (a / 4), sextetChar (a % 4 * 16), '=', '=']
  | [a, b] => [sextetChar (a / 4), sextetChar (a % 4 * 16 + b / 16),
               sextetChar (b % 16 * 4), '=']
  | a :: b :: c :: rest =>
    sextetChar (a / 4) :: sextetChar (a % 4 * 16 + b / 16) ::
    sextetChar (b % 16 * 4 + c / 64) :: sextetChar (c % 64) :: encB64 rest

/-- Base64-decode to a byte list (the inverse of `encB64` on its image;
JS `atob` raises on malformed input, which no theorem below relies on). -/
def decB64 : List Char → List Nat
  | c1 :: c2 :: c3 :: c4 :: rest =>
    let x1 := charSextet c1
    let x2 := charSextet c2
    if c3 == '=' then [x1 * 4 + x2 / 16]
    else
      let x3 := charSextet c3
      if c4 == '=' then [x1 * 4 + x2 / 16, x2 % 16 * 16 + x3 / 4]
      else
        let x4 := charSextet c4
        (x1 * 4 + x2 / 16) :: (x2 % 16 * 16 + x3 / 4) ::
        (x3 % 4 * 64 + x4) :: decB64 rest
  | _ => []

/-- Modelled builtin `btoa`: base64 of the code-point bytes; raises
(`none`) when some code point exceeds 255, exactly as the browser builtin. -/
def btoa (s : String) : Option String :=
  if s.data.all (fun c => c.toNat < 256) then
    some ⟨encB64 (s.data.map Char.toNat)⟩
  else none

/-- Modelled builtin `atob`: decode base64 back to the byte string. -/
def atob (s : String) : String := ⟨(decB64 s.data).map Char.ofNat⟩

/-! ## Remote store client (`github-api.js`) over a spec-modelled remote
store.

The GitHub REST API is an external collaborator ("treated as a black-box
remote store"); `ServerFile`, `Server`, `serverGet` and `serverPut` are
modelled from the specification's external-interface contract (spec section 6
and the revision-token glossary): GET returns the transport-encoded content
with its revision token, PUT with a matching token (or no token, for
creation) replaces the content and mints a fresh token, PUT with a mismatched
token is rejected with HTTP 409, GET of an absent file is rejected with HTTP
404.  Each client operation also returns the list of network requests it
performed, so that cache behaviour is observable. -/

/-- A network request performed by the client. -/
inductive Req
  | get
  | put
deriving DecidableEq

/-- The error kinds raised by the client, standing for the thrown `Error`s:
the configuration guard, the 401 and 403 mappings and the generic
`GitHub API error: <status> <statusText>` of `makeRequest`, the
"Repository path does not point to a file" throw of `getCSVContent`, the
`InvalidCharacterError` of `btoa` on non-Latin-1 input, and the `TypeError`
of `deleteEntry` when `splice` removed nothing. -/
inductive GHError
  | notConfigured
  | authError
  | rateLimitError
  | apiError (status : Nat)
  | notAFile
  | invalidCharacter
  | typeError
deriving DecidableEq

/-- The remote file: transport-encoded content, revision token, content type. -/
structure ServerFile where
  enc : String
  sha : Nat
  typ : String
deriving DecidableEq

/-- The remote store: at most one file, and a counter minting fresh tokens. -/
structure Server where
  file : Option ServerFile
  ctr : Nat
deriving DecidableEq

/-- The client state: configured owner/repo and the cache fields
`base64Content` / `sha` / `lastFetch` of the `GitHubAPI` constructor. -/
structure GHState where
  owner : String
  repo : String
  base64Content : Option String
  sha : Option Nat
  lastFetch : Option Nat
deriving DecidableEq

/-- `this.cacheTimeout = 5 * 60 * 1000`. -/
def cacheTimeout : Nat := 5 * 60 * 1000

/-- `GitHubAPI.isConfigured` (lines 21–28): truthy owner and repo that still
differ from the template placeholders `"1Mangesh1"` / `"trackrecord"`. -/
def isConfigured (s : GHState) : Bool :=
  !(s.owner == "") && !(s.repo == "") &&
  !(s.owner == "1Mangesh1") && !(s.repo == "trackrecord")

/-- Spec-modelled remote GET of the file contents. -/
def serverGet (srv : Server) : Except Nat ServerFile :=
  match srv.file with
  | some f => .ok f
  | none => .error 404

/-- Spec-modelled remote PUT: token must match the current revision (or be
absent for creation); success stores the content under a fresh token. -/
def serverPut (srv : Server) (tok : Option Nat) (enc : String) :
    Except Nat (Nat × Server) :=
  match srv.file with
  | some f =>
    if tok == some f.sha then
      .ok (srv.ctr, ⟨some ⟨enc, srv.ctr, "file"⟩, srv.ctr + 1⟩)
    else .error 409
  | none =>
    match tok with
    | none => .ok (srv.ctr, ⟨some ⟨enc, srv.ctr, "file"⟩, srv.ctr + 1⟩)
    | some _ => .error 422

/-- The status mapping of `GitHubAPI.makeRequest` (lines 72–81): 401 to the
auth error, 403 to the rate-limit error, any other non-2xx status to the
generic API error carrying the status. -/
def mapStatus (status : Nat) : GHError :=
  if status == 401 then .authError
  else if status == 403 then .rateLimitError
  else .apiError status

/-- `error.message.includes("404")` in `getCSVContent`: of all messages the
client can throw, only `GitHub API error: 404 Not Found` contains `"404"`
(the fixed `ERROR_MESSAGES` texts in `config.js` and the other thrown
messages contain no digits `404`). -/
def errMentions404 : GHError → Bool
  | .apiError st => st == 404
  | _ => false

/-- JS truthiness of the nullable string cache field (`null` and `""` falsy). -/
def truthyStr : Option String → Bool
  | none => false
  | some s => !(s == "")

/-- JS truthiness of the nullable numeric cache field (`null` and `0` falsy). -/
def truthyNat : Option Nat → Bool
  | none => false
  | some n => !(n == 0)

/-- `GitHubAPI.updateCSVContent` (lines 152–184): base64-encode, PUT together
with the cached revision token, and only on success replace the cache with
the new content, the server-issued token and the current time; any failure
leaves the cache untouched and propagates. -/
def updateCSVContent (s : GHState) (srv : Server) (now : Nat)
    (content : String) : Except GHError Bool × GHState × Server × List Req :=
  match btoa content with
  | none => (.error .invalidCharacter, s, srv, [])
  | some enc =>
    if !(isConfigured s) then (.error .notConfigured, s, srv, [])
    else
      match serverPut srv s.sha enc with
      | .error status => (.error (mapStatus status), s, srv, [.put])
      | .ok (newSha, srv') =>
        (.ok true,
         { s with base64Content := some enc, sha := some newSha, lastFetch := some now },
         srv', [.put])

/-- `APP_CONFIG.CSV_HEADERS.join(",") + "
"`: the initial file content. -/
def initialCSV : String := headerLine ++ "
"

/-- `GitHubAPI.createInitialCSV` (lines 140–144): write the header-only
content and return it. -/
def createInitialCSV (s : GHState) (srv : Server) (now : Nat) :
    Except GHError String × GHState × Server × List Req :=
  match updateCSVContent s srv now initialCSV with
  | (.ok _, s', srv', reqs) => (.ok initialCSV, s', srv', reqs)
  | (.error e, s', srv', reqs) => (.error e, s', srv', reqs)

/-- `GitHubAPI.getCSVContent` (lines 101–134): return the decoded cache when
it is truthy, fresh and no refresh is forced; otherwise GET the file,
require type `"file"`, store content + revision token + timestamp and return
the decoded text; a 404 falls back to `createInitialCSV`, every other error
propagates. -/
def getCSVContent (s : GHState) (srv : Server) (now : Nat)
    (forceRefresh : Bool) : Except GHError String × GHState × Server × List Req :=
  if !forceRefresh && truthyStr s.base64Content && truthyNat s.lastFetch &&
      decide (now - s.lastFetch.getD 0 < cacheTimeout) then
    (.ok (atob (s.base64Content.getD "")), s, srv, [])
  else if !(isConfigured s) then (.error .notConfigured, s, srv, [])
  else
    match serverGet srv with
    | .error status =>
      let e := mapStatus status
      if errMentions404 e then
        match createInitialCSV s srv now with
        | (res, s', srv', reqs) => (res, s', srv', .get :: reqs)
      else (.error e, s, srv, [.get])
    | .ok f =>
      if !(f.typ == "file") then (.error .notAFile, s, srv, [.get])
      else
        (.ok (atob f.enc),
         { s with base64Content := some f.enc, sha := some f.sha, lastFetch := some now },
         srv, [.get])

/-- `GitHubAPI.appendEntry` (lines 191–215): read, append the entry, encode,
write. -/
def appendEntry (s : GHState) (srv : Server) (now : Nat) (entry : Obj) :
    Except GHError Bool × GHState × Server × List Req :=
  match getCSVContent s srv now false with
  | (.error e, s', srv', reqs) => (.error e, s', srv', reqs)
  | (.ok content, s', srv', reqs) =>
    let currentData := csvToArray content
    let newContent := arrayToCSV (currentData ++ [entry])
    match updateCSVContent s' srv' now newContent with
    | (res, s'', srv'', reqs2) => (res, s'', srv'', reqs ++ reqs2)

/-- `TrackRecordApp.deleteEntry` (controller lines 802–831), remote part:
read, `splice(index, 1)`, encode, write; building the commit message reads
`deletedEntry["Project/Task"]`, which raises a `TypeError` when `splice`
removed nothing (index out of range).  The success value is the deleted
record; the controller's subsequent reload and DOM refresh are presentation. -/
def deleteEntry (s : GHState) (srv : Server) (now : Nat) (index : Nat) :
    Except GHError Obj × GHState × Server × List Req :=
  match getCSVContent s srv now false with
  | (.error e, s', srv', reqs) => (.error e, s', srv', reqs)
  | (.ok content, s', srv', reqs) =>
    let currentData := csvToArray content
    match currentData.get? index with
    | none => (.error .typeError, s', srv', reqs)
    | some deleted =>
      let newContent := arrayToCSV (currentData.eraseIdx index)
      match updateCSVContent s' srv' now newContent with
      | (.ok _, s'', srv'', reqs2) => (.ok deleted, s'', srv'', reqs ++ reqs2)
      | (.error e, s'', srv'', reqs2) => (.error e, s'', srv'', reqs ++ reqs2)

/-- `GitHubAPI.clearCache` (lines 322–327). -/
def clearCache (s : GHState) : GHState :=
  { s with base64Content := none, sha := none, lastFetch := none }

/-! ## Transport-encoding lemmas -/

/-- Decoding a base64 digit of a sextet recovers the sextet. -/
theorem charSextet_sextetChar : ∀ n, n < 64 → charSextet (sextetChar n) = n := by
  decide

/-- No sextet encodes to the padding character. -/
theorem sextetChar_ne_pad : ∀ n, n < 64 → (sextetChar n == '=') = false := by
  decide

/-- Splitting a sextet made of a high part and a small low part. -/
theorem sextet_split (x y k : Nat) (hk : 0 < k) (hy : y < k) :
    (x * k + y) / k = x ∧ (x * k + y) % k = y := by
  have h1 : x * k + y = k * x + y := by ring
  rw [h1, Nat.mul_add_div hk, Nat.mul_add_mod, Nat.div_eq_of_lt hy,
    Nat.mod_eq_of_lt hy]
  omega

/-- `decB64` inverts `encB64` on byte lists. -/
theorem decB64_encB64 : ∀ bytes : List Nat, (∀ b ∈ bytes, b < 256) →
    decB64 (encB64 bytes) = bytes
  | [], _ => rfl
  | [a], h => by
    have ha : a < 256 := h a (by simp)
    have h1 := charSextet_sextetChar (a / 4) (by omega)
    have h2 := charSextet_sextetChar (a % 4 * 16) (by omega)
    have e1 : a % 4 * 16 / 16 = a % 4 := Nat.mul_div_cancel _ (by norm_num)
    simp only [encB64, decB64, h1, h2, beq_self_eq_true, if_true,
      List.cons.injEq, and_true, e1]
    omega
  | [a, b], h => by
    have ha : a < 256 := h a (by simp)
    have hb : b < 256 := h b (by simp)
    have h1 := charSextet_sextetChar (a / 4) (by omega)
    have h2 := charSextet_sextetChar (a % 4 * 16 + b / 16) (by omega)
    have h3 := charSextet_sextetChar (b % 16 * 4) (by omega)
    have e1 := sextet_split (a % 4) (b / 16) 16 (by norm_num) (by omega)
    have e2 : b % 16 * 4 / 4 = b % 16 := Nat.mul_div_cancel _ (by norm_num)
    simp only [encB64, decB64, h1, h2, h3, sextetChar_ne_pad (b % 16 * 4) (by omega),
      beq_self_eq_true, if_true, Bool.false_eq_true, if_false,
      List.cons.injEq, and_true, e1.1, e1.2, e2]
    omega
  | a :: b :: c :: rest, h => by
    have ha : a < 256 := h a (by simp)
    have hb : b < 256 := h b (by simp)
    have hc : c < 256 := h c (by simp)
    have h1 := charSextet_sextetChar (a / 4) (by omega)
    have h2 := charSextet_sextetChar (a % 4 * 16 + b / 16) (by omega)
    have h3 := charSextet_sextetChar (b % 16 * 4 + c / 64) (by omega)
    have h4 := charSextet_sextetChar (c % 64) (by omega)
    have e1 := sextet_split (a % 4) (b / 16) 16 (by norm_num) (by omega)
    have e2 := sextet_split (b % 16) (c / 64) 4 (by norm_num) (by omega)
    have ih := decB64_encB64 rest (fun x hx => h x (by simp [hx]))
    simp only [encB64, decB64, h1, h2, h3, h4,
      sextetChar_ne_pad (b % 16 * 4 + c / 64) (by omega),
      sextetChar_ne_pad (c % 64) (by omega),
      Bool.false_eq_true, if_false, ih, List.cons.injEq, and_true,
      e1.1, e1.2, e2.1, e2.2]
    omega

/-- The decoded transport encoding of a Latin-1 string is the string itself:
`atob(btoa(s)) = s` whenever `btoa` succeeds. -/
theorem atob_btoa {s t : String} (h : btoa s = some t) : atob t = s := by
  unfold btoa at h
  split at h
  · rename_i hall
    cases h
    unfold atob
    rw [decB64_encB64]
    · simp only [List.map_map]
      have hcomp : (Char.ofNat ∘ Char.toNat) = id := by
        funext c; simp [Function.comp, Char.ofNat_toNat]
      rw [hcomp, List.map_id]
    · intro bb hbb
      simp only [List.mem_map] at hbb
      obtain ⟨c, hc, rfl⟩ := hbb
      exact of_decide_eq_true (List.all_eq_true.mp hall c hc)
  · exact absurd h (by simp)

/-- `encB64` of a nonempty byte list is nonempty. -/
theorem encB64_ne_nil : ∀ bytes : List Nat, bytes ≠ [] → encB64 bytes ≠ []
  | [], h => absurd rfl h
  | [_], _ => by simp [encB64]
  | [_, _], _ => by simp [encB64]
  | _ :: _ :: _ :: _, _ => by simp [encB64]

/-- `btoa` of a nonempty string is nonempty. -/
theorem btoa_ne_empty {s t : String} (h : btoa s = some t) (hs : s ≠ "") :
    t ≠ "" := by
  unfold btoa at h
  split at h
  · cases h
    intro hcon
    have hdat : encB64 (s.data.map Char.toNat) = [] :=
      congrArg String.data hcon
    have hsd : s.data ≠ [] := fun hh => hs (by cases s; simp_all)
    exact encB64_ne_nil _ (by simpa using hsd) hdat
  · exact absurd h (by simp)

/-! ## Trim lemmas -/

/-- Appending an all-whitespace run does not change `trimBack`. -/
theorem trimBack_append_ws (xs run : List Char)
    (h : ∀ x ∈ run, jsWhitespace x = true) :
    trimBack (xs ++ run) = trimBack xs := by
  unfold trimBack
  rw [List.reverse_append, List.dropWhile_append_of_pos
    (fun a ha => h a (List.mem_reverse.mp ha))]

/-- `trimBack` keeps everything left of a non-whitespace character. -/
theorem trimBack_append_keep (xs ys : List Char)
    (hex : ∃ y ∈ ys, jsWhitespace y = false) :
    trimBack (xs ++ ys) = xs ++ trimBack ys := by
  unfold trimBack
  rw [List.reverse_append, List.dropWhile_append]
  have hne : ¬(ys.reverse.dropWhile jsWhitespace).isEmpty = true := by
    simp only [List.isEmpty_iff, List.dropWhile_eq_nil_iff]
    intro hall
    obtain ⟨y, hy, hyw⟩ := hex
    have := hall y (List.mem_reverse.mpr hy)
    simp [hyw] at this
  rw [if_neg hne, List.reverse_append, List.reverse_reverse]

/-- Every list splits as its `trimBack` plus an all-whitespace run. -/
theorem trimBack_decomp (l : List Char) :
    ∃ run, l = trimBack l ++ run ∧ ∀ x ∈ run, jsWhitespace x = true := by
  refine ⟨(l.reverse.takeWhile jsWhitespace).reverse, ?_, ?_⟩
  · conv_lhs => rw [← l.reverse_reverse,
      ← List.takeWhile_append_dropWhile (p := jsWhitespace) (l := l.reverse)]
    rw [List.reverse_append]
    rfl
  · intro x hx
    exact List.mem_takeWhile_imp (List.mem_reverse.mp hx)

/-- Members of `trimBack l` are members of `l`. -/
theorem mem_of_mem_trimBack {c : Char} {l : List Char} (h : c ∈ trimBack l) :
    c ∈ l := by
  unfold trimBack at h
  have h1 : c ∈ List.dropWhile jsWhitespace l.reverse := List.mem_reverse.mp h
  exact List.mem_reverse.mp ((List.dropWhile_sublist _).subset h1)

/-- The last character left by `trimBack` is not whitespace. -/
theorem trimBack_getLast_not {l : List Char} {c : Char}
    (h : (trimBack l).getLast? = some c) : jsWhitespace c = false := by
  unfold trimBack at h
  rw [List.getLast?_reverse] at h
  have := List.head?_dropWhile_not jsWhitespace l.reverse
  rw [h] at this
  exact this

/-- A member not satisfying the predicate survives `dropWhile`. -/
theorem mem_dropWhile_of_not {α : Type} {c : α} {l : List α} {p : α → Bool}
    (hc : c ∈ l) (hp : p c = false) : c ∈ l.dropWhile p := by
  induction l with
  | nil => cases hc
  | cons x xs ih =>
    by_cases hx : p x = true
    · rw [List.dropWhile_cons_of_pos hx]
      rcases List.mem_cons.mp hc with rfl | hmem
      · rw [hp] at hx; cases hx
      · exact ih hmem
    · rw [List.dropWhile_cons_of_neg (by simpa using hx)]
      exact hc

/-- A non-whitespace member survives `trimBack`. -/
theorem mem_trimBack_of_mem {c : Char} {l : List Char} (hc : c ∈ l)
    (hw : jsWhitespace c = false) : c ∈ trimBack l := by
  unfold trimBack
  exact List.mem_reverse.mpr (mem_dropWhile_of_not (List.mem_reverse.mpr hc) hw)

/-- Members of `trimAux cs` are members of `cs`. -/
theorem mem_of_mem_trimAux {c : Char} {cs : List Char} (h : c ∈ trimAux cs) :
    c ∈ cs := by
  unfold trimAux at h
  exact (List.dropWhile_sublist _).mem (mem_of_mem_trimBack h)

/-- A non-whitespace member survives `trimAux`. -/
theorem mem_trimAux_of_mem {c : Char} {cs : List Char} (hc : c ∈ cs)
    (hw : jsWhitespace c = false) : c ∈ trimAux cs :=
  mem_trimBack_of_mem (mem_dropWhile_of_not hc hw) hw

/-- `trimBack` fixes a list whose last character is not whitespace. -/
theorem trimBack_eq_self {l : List Char} {d : Char}
    (hl : l.getLast? = some d) (hd : jsWhitespace d = false) :
    trimBack l = l := by
  unfold trimBack
  have hh : l.reverse.head? = some d := by rw [List.head?_reverse]; exact hl
  cases hrev : l.reverse with
  | nil => rw [hrev] at hh; cases hh
  | cons x xs =>
    rw [hrev] at hh
    have hx : x = d := by simpa using hh
    subst hx
    have hstep : List.dropWhile jsWhitespace (x :: xs) = x :: xs :=
      List.dropWhile_cons_of_neg (by simp [hd])
    rw [hstep, ← hrev, List.reverse_reverse]

/-- `trimAux` fixes a list whose first and last characters are not
whitespace. -/
theorem trimAux_eq_self {cs : List Char} {c d : Char}
    (hh : cs.head? = some c) (hc : jsWhitespace c = false)
    (hl : cs.getLast? = some d) (hd : jsWhitespace d = false) :
    trimAux cs = cs := by
  unfold trimAux
  cases cs with
  | nil => simp at hh
  | cons x xs =>
    have hx : x = c := by simpa using hh
    subst hx
    have hstep : List.dropWhile jsWhitespace (x :: xs) = x :: xs :=
      List.dropWhile_cons_of_neg (by simp [hc])
    rw [hstep]
    exact trimBack_eq_self hl hd

/-- The first character left by `trimAux` is not whitespace. -/
theorem trimAux_head_not {cs : List Char} {x : Char}
    (h : (trimAux cs).head? = some x) : jsWhitespace x = false := by
  unfold trimAux at h
  obtain ⟨run, hdec, _⟩ := trimBack_decomp (cs.dropWhile jsWhitespace)
  have hstep := List.head?_dropWhile_not jsWhitespace cs
  have hXh : (cs.dropWhile jsWhitespace).head? = some x := by
    rw [hdec, List.head?_append, h]
    rfl
  rw [hXh] at hstep
  exact hstep

/-- The last character left by `trimAux` is not whitespace. -/
theorem trimAux_getLast_not {cs : List Char} {x : Char}
    (h : (trimAux cs).getLast? = some x) : jsWhitespace x = false :=
  trimBack_getLast_not h

/-- `trimAux` is idempotent. -/
theorem trimAux_idem (cs : List Char) : trimAux (trimAux cs) = trimAux cs := by
  cases h : trimAux cs with
  | nil => rfl
  | cons x xs =>
    have h1 : (trimAux cs).head? = some x := by rw [h]; rfl
    have hx := trimAux_head_not h1
    obtain ⟨y, hy⟩ : ∃ y, (trimAux cs).getLast? = some y := by
      rw [h]; exact ⟨_, List.getLast?_eq_getLast _ (by simp)⟩
    have hyw := trimAux_getLast_not hy
    rw [h] at h1 hy
    exact trimAux_eq_self h1 hx hy hyw

/-- `jsTrim` is idempotent. -/
theorem jsTrim_idem (s : String) : jsTrim (jsTrim s) = jsTrim s :=
  congrArg String.mk (trimAux_idem s.data)

/-- `trimAux` keeps any non-whitespace member, so it is nonempty. -/
theorem trimAux_ne_nil_of_mem {c : Char} {cs : List Char} (hc : c ∈ cs)
    (hw : jsWhitespace c = false) : trimAux cs ≠ [] := by
  intro h
  have := mem_trimAux_of_mem hc hw
  rw [h] at this
  cases this

/-! ## Split / join lemmas -/

/-- `splitOnChar` never returns the empty list of parts. -/
theorem splitOnChar_ne_nil (sep : Char) : ∀ cs, splitOnChar sep cs ≠ []
  | [] => by simp [splitOnChar]
  | c :: cs => by
    by_cases h : (c == sep) = true
    · simp [splitOnChar, h]
    · cases hrec : splitOnChar sep cs with
      | nil => exact absurd hrec (splitOnChar_ne_nil sep cs)
      | cons p ps => simp [splitOnChar, h, hrec]

/-- Splitting a separator-free list yields that single part. -/
theorem splitOnChar_no_sep {sep : Char} : ∀ {cs : List Char}, sep ∉ cs →
    splitOnChar sep cs = [cs]
  | [], _ => rfl
  | c :: cs, h => by
    have hc : (c == sep) = false := by
      simp only [beq_eq_false_iff_ne, ne_eq]
      exact fun hh => h (hh ▸ List.mem_cons_self c cs)
    have ih := splitOnChar_no_sep
      (show sep ∉ cs from fun hh => h (List.mem_cons_of_mem c hh))
    simp [splitOnChar, hc, ih]

/-- Splitting past the first separator peels off the first part. -/
theorem splitOnChar_append {sep : Char} : ∀ {p : List Char} (tail : List Char),
    sep ∉ p → splitOnChar sep (p ++ sep :: tail) = p :: splitOnChar sep tail
  | [], tail, _ => by simp [splitOnChar]
  | c :: p, tail, h => by
    have hc : (c == sep) = false := by
      simp only [beq_eq_false_iff_ne, ne_eq]
      exact fun hh => h (hh ▸ List.mem_cons_self c p)
    have ih := splitOnChar_append (p := p) tail (fun hh => h (List.mem_cons_of_mem c hh))
    cases hrec : splitOnChar sep (p ++ sep :: tail) with
    | nil => exact absurd hrec (splitOnChar_ne_nil sep _)
    | cons q qs =>
      rw [hrec] at ih
      cases ih
      simp [splitOnChar, hc, hrec]

/-- `splitOnChar` inverts `joinSep` on separator-free parts. -/
theorem splitOnChar_joinSep {sep : Char} : ∀ parts : List (List Char),
    parts ≠ [] → (∀ part ∈ parts, sep ∉ part) →
    splitOnChar sep (joinSep sep parts) = parts
  | [], h, _ => absurd rfl h
  | [p], _, hfree => by
    simp only [joinSep]
    exact splitOnChar_no_sep (hfree p (by simp))
  | p :: q :: rest, _, hfree => by
    have hp : sep ∉ p := hfree p (by simp)
    have ih := splitOnChar_joinSep (q :: rest) (by simp)
      (fun part hpart => hfree part (List.mem_cons_of_mem p hpart))
    simp only [joinSep]
    rw [splitOnChar_append _ hp, ih]

/-- Characters of a join are the separator or characters of the parts. -/
theorem mem_joinSep {c sep : Char} : ∀ {parts : List (List Char)},
    c ∈ joinSep sep parts → c = sep ∨ ∃ part ∈ parts, c ∈ part
  | [], h => by cases h
  | [p], h => by
    simp only [joinSep] at h
    exact Or.inr ⟨p, by simp, h⟩
  | p :: q :: rest, h => by
    simp only [joinSep, List.mem_append, List.mem_cons] at h
    rcases h with hp | rfl | hrest
    · exact Or.inr ⟨p, by simp, hp⟩
    · exact Or.inl rfl
    · rcases mem_joinSep hrest with rfl | ⟨part, hpart, hc⟩
      · exact Or.inl rfl
      · exact Or.inr ⟨part, List.mem_cons_of_mem p hpart, hc⟩

/-- Each part's characters appear in the join. -/
theorem mem_joinSep_of_mem {c sep : Char} : ∀ {parts : List (List Char)}
    {part : List Char}, part ∈ parts → c ∈ part → c ∈ joinSep sep parts
  | [], _, hpart, _ => by cases hpart
  | [p], q, hpart, hc => by
    have : q = p := by simpa using hpart
    subst this
    simpa [joinSep] using hc
  | p :: q' :: rest, q, hpart, hc => by
    simp only [joinSep, List.mem_append, List.mem_cons]
    rcases List.mem_cons.mp hpart with rfl | hmem
    · exact Or.inl hc
    · exact Or.inr (Or.inr (mem_joinSep_of_mem hmem hc))

/-- Appending one more part to a nonempty join. -/
theorem joinSep_append_single (sep : Char) : ∀ (ps : List (List Char))
    (z : List Char), ps ≠ [] →
    joinSep sep (ps ++ [z]) = joinSep sep ps ++ sep :: z
  | [], _, h => absurd rfl h
  | [p], z, _ => by simp [joinSep]
  | p :: q :: rest, z, _ => by
    have ih := joinSep_append_single sep (q :: rest) z (by simp)
    calc joinSep sep ((p :: q :: rest) ++ [z])
        = p ++ sep :: joinSep sep ((q :: rest) ++ [z]) := rfl
      _ = p ++ sep :: (joinSep sep (q :: rest) ++ sep :: z) := by rw [ih]
      _ = (p ++ sep :: joinSep sep (q :: rest)) ++ sep :: z := by simp
      _ = joinSep sep (p :: q :: rest) ++ sep :: z := rfl

/-- The head of a join starting with a nonempty part. -/
theorem joinSep_head (sep : Char) (p : List Char) (ps : List (List Char))
    (hp : p ≠ []) : (joinSep sep (p :: ps)).head? = p.head? := by
  cases ps with
  | nil => rfl
  | cons q rest =>
    show (p ++ sep :: joinSep sep (q :: rest)).head? = p.head?
    rw [List.head?_append]
    cases p with
    | nil => exact absurd rfl hp
    | cons x xs => rfl

/-- `dropWhile` fixes a list whose head is not whitespace. -/
theorem dropWhile_eq_self_of_head {l : List Char} {c : Char}
    (hh : l.head? = some c) (hc : jsWhitespace c = false) :
    l.dropWhile jsWhitespace = l := by
  cases l with
  | nil => cases hh
  | cons x xs =>
    have hx : x = c := by simpa using hh
    subst hx
    exact List.dropWhile_cons_of_neg (by simp [hc])

/-! ## Parse lemmas: `parseCSVLine` inverts the field encoding -/

/-- `escapeQuotes` fixes quote-free character lists. -/
theorem escapeQuotes_data : ∀ {cs : List Char}, '"' ∉ cs →
    cs.flatMap (fun c => if c == '"' then ['"', '"'] else [c]) = cs
  | [], _ => rfl
  | c :: cs, h => by
    have hce : ¬((c == '"') = true) := by
      simp only [beq_iff_eq]
      exact fun hh => h (hh ▸ List.mem_cons_self c cs)
    have ih := escapeQuotes_data
      (show ('"' : Char) ∉ cs from fun hh => h (List.mem_cons_of_mem c hh))
    rw [List.flatMap_cons, if_neg hce, ih]
    rfl

/-- `escapeQuotes` fixes quote-free strings. -/
theorem escapeQuotes_id {v : String} (hq : '"' ∉ v.data) : escapeQuotes v = v :=
  congrArg String.mk (escapeQuotes_data hq)

/-- Characters produced by `escapeQuotes` are quotes or input characters. -/
theorem mem_escapeQuotes {c : Char} {v : String}
    (h : c ∈ (escapeQuotes v).data) : c = '"' ∨ c ∈ v.data := by
  unfold escapeQuotes at h
  simp only [List.mem_flatMap] at h
  obtain ⟨d, hd, hc⟩ := h
  by_cases hq : (d == '"') = true
  · rw [if_pos hq] at hc
    left
    rcases List.mem_cons.mp hc with rfl | hc2
    · rfl
    · simpa using hc2
  · rw [if_neg hq] at hc
    right
    have hcd : c = d := by simpa using hc
    exact hcd ▸ hd

/-- Characters produced by `encodeField` are quotes or input characters. -/
theorem mem_encodeField {c : Char} {v : String}
    (h : c ∈ (encodeField v).data) : c = '"' ∨ c ∈ v.data := by
  simp only [encodeField] at h
  split at h
  · simp only [String.data_append, List.mem_append] at h
    rcases h with h | h
    · rcases h with h | h
      · left; simpa using h
      · exact mem_escapeQuotes h
    · left; simpa using h
  · exact mem_escapeQuotes h

/-- Inside quotes, a quote-free run is appended verbatim to the current
field. -/
theorem parseAux_quoted : ∀ {v : List Char} (tail cur : List Char), '"' ∉ v →
    parseAux (v ++ tail) cur true = parseAux tail (cur ++ v) true
  | [], tail, cur, _ => by simp
  | c :: v, tail, cur, h => by
    have hc : ¬((c == '"') = true) := by
      simp only [beq_iff_eq]
      exact fun hh => h (hh ▸ List.mem_cons_self c v)
    have ih := parseAux_quoted (v := v) tail (cur ++ [c])
      (fun hh => h (List.mem_cons_of_mem c hh))
    show parseAux (c :: (v ++ tail)) cur true = _
    simp only [parseAux]
    rw [if_neg hc, if_neg (by simp)]
    rw [ih, ← List.append_cons]

/-- Outside quotes, a quote-free comma-free run is appended verbatim. -/
theorem parseAux_unquoted : ∀ {v : List Char} (tail cur : List Char),
    '"' ∉ v → ',' ∉ v →
    parseAux (v ++ tail) cur false = parseAux tail (cur ++ v) false
  | [], tail, cur, _, _ => by simp
  | c :: v, tail, cur, h, h2 => by
    have hc : ¬((c == '"') = true) := by
      simp only [beq_iff_eq]
      exact fun hh => h (hh ▸ List.mem_cons_self c v)
    have hc2 : ¬((c == ',' && !false) = true) := by
      simp only [Bool.not_false, Bool.and_true, beq_iff_eq]
      exact fun hh => h2 (hh ▸ List.mem_cons_self c v)
    have ih := parseAux_unquoted (v := v) tail (cur ++ [c])
      (fun hh => h (List.mem_cons_of_mem c hh))
      (fun hh => h2 (List.mem_cons_of_mem c hh))
    show parseAux (c :: (v ++ tail)) cur false = _
    simp only [parseAux]
    rw [if_neg hc, if_neg hc2]
    rw [ih, ← List.append_cons]

/-- A comma outside quotes finishes the current field. -/
theorem parseAux_comma (rest cur : List Char) :
    parseAux (',' :: rest) cur false =
      jsTrim ⟨cur⟩ :: parseAux rest [] false := by
  simp only [parseAux]
  rw [if_neg (by simp), if_pos (by simp)]

/-- One encoded field followed by a comma parses to its trimmed value. -/
theorem parseAux_encodeField (v : String) (rest : List Char)
    (hq : '"' ∉ v.data) (hn : '\n' ∉ v.data) :
    parseAux ((encodeField v).data ++ ',' :: rest) [] false =
      jsTrim v :: parseAux rest [] false := by
  have hesc : escapeQuotes v = v := escapeQuotes_id hq
  simp only [encodeField, hesc]
  by_cases hcomma : v.data.contains ',' = true
  · rw [if_pos (by rw [hcomma]; rfl)]
    show parseAux (('"' :: v.data ++ ['"']) ++ ',' :: rest) [] false = _
    have s1 : (('"' :: v.data ++ ['"']) ++ ',' :: rest) =
        '"' :: (v.data ++ '"' :: ',' :: rest) := by simp
    rw [s1]
    show parseAux (v.data ++ '"' :: ',' :: rest) [] (!false) = _
    rw [Bool.not_false, parseAux_quoted _ _ hq, List.nil_append]
    show parseAux (',' :: rest) v.data (!true) = _
    rw [Bool.not_true, parseAux_comma]
  · have hcomma' : v.data.contains ',' = false := by
      simpa using hcomma
    have hn' : v.data.contains '\n' = false := by
      simpa using hn
    rw [if_neg (by rw [hcomma', hn']; simp)]
    rw [parseAux_unquoted _ _ hq (by simpa using hcomma), List.nil_append,
      parseAux_comma]

/-- The last encoded field of a line parses to its trimmed value. -/
theorem parseAux_encodeField_last (v : String)
    (hq : '"' ∉ v.data) (hn : '\n' ∉ v.data) :
    parseAux (encodeField v).data [] false = [jsTrim v] := by
  have hesc : escapeQuotes v = v := escapeQuotes_id hq
  simp only [encodeField, hesc]
  by_cases hcomma : v.data.contains ',' = true
  · rw [if_pos (by rw [hcomma]; rfl)]
    show parseAux ('"' :: v.data ++ ['"']) [] false = _
    have s1 : ('"' :: v.data ++ ['"']) = '"' :: (v.data ++ '"' :: []) := by simp
    rw [s1]
    show parseAux (v.data ++ '"' :: []) [] (!false) = _
    rw [Bool.not_false, parseAux_quoted _ _ hq, List.nil_append]
    show parseAux [] v.data (!true) = _
    rfl
  · have hcomma' : v.data.contains ',' = false := by
      simpa using hcomma
    have hn' : v.data.contains '\n' = false := by
      simpa using hn
    rw [if_neg (by rw [hcomma', hn']; simp)]
    have hstep := parseAux_unquoted (v := v.data) [] [] hq (by simpa using hcomma)
    rw [List.append_nil] at hstep
    rw [hstep, List.nil_append]
    rfl

/-- A joined line of encoded fields parses back to the trimmed values. -/
theorem parseAux_rowValues : ∀ (vs : List String), vs ≠ [] →
    (∀ v ∈ vs, '"' ∉ v.data ∧ '\n' ∉ v.data) →
    parseAux (joinSep ',' (vs.map (fun v => (encodeField v).data))) [] false =
      vs.map jsTrim
  | [], h, _ => absurd rfl h
  | [v], _, hgood => by
    have hv := hgood v (by simp)
    simpa [joinSep] using parseAux_encodeField_last v hv.1 hv.2
  | v :: w :: rest, _, hgood => by
    have hv := hgood v (by simp)
    have ih := parseAux_rowValues (w :: rest) (by simp)
      (fun x hx => hgood x (List.mem_cons_of_mem v hx))
    show parseAux ((encodeField v).data ++ ',' ::
      joinSep ',' ((w :: rest).map (fun u => (encodeField u).data))) [] false = _
    rw [parseAux_encodeField v _ hv.1 hv.2, ih]
    rfl

/-! ## Whitespace-suffix invariance of the line parser -/

/-- Trimming absorbs an appended all-whitespace run. -/
theorem trimAux_append_ws (xs run : List Char)
    (hrun : ∀ x ∈ run, jsWhitespace x = true) :
    trimAux (xs ++ run) = trimAux xs := by
  unfold trimAux
  by_cases hall : ∀ x ∈ xs, jsWhitespace x = true
  · rw [List.dropWhile_append_of_pos hall,
      List.dropWhile_eq_nil_iff.mpr (fun x hx => by simp [hrun x hx]),
      List.dropWhile_eq_nil_iff.mpr (fun x hx => by simp [hall x hx])]
  · rw [List.dropWhile_append]
    have hne : ¬(xs.dropWhile jsWhitespace).isEmpty = true := by
      simp only [List.isEmpty_iff, List.dropWhile_eq_nil_iff]
      intro hcon
      exact hall (fun x hx => by
        have := hcon x hx
        simpa using this)
    rw [if_neg hne]
    exact trimBack_append_ws _ _ hrun

/-- Parsing an all-whitespace tail just flushes the trimmed accumulator. -/
theorem parseAux_all_ws : ∀ (run cur : List Char) (q : Bool),
    (∀ x ∈ run, jsWhitespace x = true) →
    parseAux run cur q = [jsTrim ⟨cur⟩]
  | [], cur, q, _ => rfl
  | c :: run, cur, q, hrun => by
    have hcw : jsWhitespace c = true := hrun c (List.mem_cons_self c run)
    have hc1 : ¬((c == '"') = true) := by
      simp only [beq_iff_eq]
      intro hh
      rw [hh] at hcw
      simp [jsWhitespace] at hcw
    have hc2 : ¬((c == ',' && !q) = true) := by
      intro hh
      have : (c == ',') = true := by
        cases hcq : (c == ',') with
        | true => rfl
        | false => rw [hcq] at hh; simp at hh
      have hceq : c = ',' := by simpa using this
      rw [hceq] at hcw
      simp [jsWhitespace] at hcw
    have ih := parseAux_all_ws run (cur ++ [c]) q
      (fun x hx => hrun x (List.mem_cons_of_mem c hx))
    simp only [parseAux]
    rw [if_neg hc1, if_neg hc2, ih]
    have : jsTrim ⟨cur ++ [c]⟩ = jsTrim ⟨cur⟩ :=
      congrArg String.mk (trimAux_append_ws cur [c] (by simpa using hcw))
    rw [this]

/-- The line parser ignores an all-whitespace suffix. -/
theorem parseAux_ws_suffix (run : List Char)
    (hrun : ∀ x ∈ run, jsWhitespace x = true) :
    ∀ (l cur : List Char) (q : Bool),
    parseAux (l ++ run) cur q = parseAux l cur q
  | [], cur, q => by
    rw [List.nil_append, parseAux_all_ws run cur q hrun]
    rfl
  | c :: l, cur, q => by
    show parseAux (c :: (l ++ run)) cur q = parseAux (c :: l) cur q
    simp only [parseAux]
    by_cases h1 : (c == '"') = true
    · rw [if_pos h1, if_pos h1, parseAux_ws_suffix run hrun l cur (!q)]
    · rw [if_neg h1, if_neg h1]
      by_cases h2 : (c == ',' && !q) = true
      · rw [if_pos h2, if_pos h2, parseAux_ws_suffix run hrun l [] false]
      · rw [if_neg h2, if_neg h2, parseAux_ws_suffix run hrun l (cur ++ [c]) q]

/-- The line parser gives the same fields on a back-trimmed line. -/
theorem parseCSVLine_trimBack (l : List Char) :
    parseCSVLine ⟨trimBack l⟩ = parseCSVLine ⟨l⟩ := by
  obtain ⟨run, hdec, hrun⟩ := trimBack_decomp l
  unfold parseCSVLine
  show parseAux (trimBack l) [] false = parseAux l [] false
  conv_rhs => rw [hdec]
  rw [parseAux_ws_suffix run hrun]

/-! ## Row-level and content-level decode of the encoder output -/

/-- Every encoded row contains a comma (ten columns, nine separators). -/
theorem comma_mem_rowLine (row : Obj) : ',' ∈ rowLine row := by
  simp [rowLine, CSV_HEADERS, joinSep]

/-- An encoded row of newline-free values contains no newline. -/
theorem rowLine_no_newline {row : Obj}
    (hvals : ∀ h ∈ CSV_HEADERS, '\n' ∉ (jsGetD row h).data) :
    '\n' ∉ rowLine row := by
  intro hmem
  rcases mem_joinSep hmem with heq | ⟨part, hpart, hc⟩
  · simp at heq
  · obtain ⟨h, hh, rfl⟩ := List.mem_map.mp hpart
    rcases mem_encodeField hc with heq | hmem2
    · simp at heq
    · exact hvals h hh hmem2

/-- Decoding one encoded row against the canonical headers yields the
canonical object of the row's trimmed canonical fields. -/
theorem decodeRow_eq (row : Obj)
    (hvals : ∀ h ∈ CSV_HEADERS, '"' ∉ (jsGetD row h).data ∧
      '\n' ∉ (jsGetD row h).data) :
    buildObj CSV_HEADERS (parseCSVLine ⟨rowLine row⟩) =
      CSV_HEADERS.map (fun h => (h, jsTrim (jsGetD row h))) := by
  have hrow : rowLine row =
      joinSep ',' ((CSV_HEADERS.map (jsGetD row)).map (fun v => (encodeField v).data)) := by
    rw [rowLine, List.map_map]
    rfl
  have hparse : parseCSVLine ⟨rowLine row⟩ = (CSV_HEADERS.map (jsGetD row)).map jsTrim := by
    show parseAux (rowLine row) [] false = _
    rw [hrow]
    exact parseAux_rowValues _ (by simp [CSV_HEADERS]) (by
      intro v hv
      obtain ⟨h, hh, rfl⟩ := List.mem_map.mp hv
      exact hvals h hh)
  rw [hparse]
  rfl

/-- The parsed header names of the canonical header line. -/
theorem headers_of_headerLine :
    ((splitOnChar ',' headerLine.data).map (fun cs => (⟨cs⟩ : String))).map jsTrim
      = CSV_HEADERS := by decide

/-- Decoding a header-only file gives the empty collection. -/
theorem csvToArray_initial : csvToArray (headerLine ++ "\n") = [] := by decide

/-- A nonempty-cased `String.mk`. -/
theorem mk_ne_empty {l : List Char} (h : l ≠ []) : (⟨l⟩ : String) ≠ "" :=
  fun hcon => h (congrArg String.data hcon)

/-- An encoded row never trims to the blank line. -/
theorem jsTrim_rowLine_ne (row : Obj) : jsTrim ⟨rowLine row⟩ ≠ "" :=
  mk_ne_empty (trimAux_ne_nil_of_mem (comma_mem_rowLine row) (by decide))

/-- A back-trimmed encoded row never trims to the blank line. -/
theorem jsTrim_trimBack_rowLine_ne (row : Obj) :
    jsTrim ⟨trimBack (rowLine row)⟩ ≠ "" :=
  mk_ne_empty (trimAux_ne_nil_of_mem
    (mem_trimBack_of_mem (comma_mem_rowLine row) (by decide)) (by decide))

/-- `filterMap` of an everywhere-`some` function is a `map`. -/
theorem filterMap_congr_some {α β : Type} {g : α → Option β} {f : α → β} :
    ∀ {l : List α}, (∀ x ∈ l, g x = some (f x)) → l.filterMap g = l.map f
  | [], _ => rfl
  | x :: l, h => by
    rw [List.filterMap_cons, h x (List.mem_cons_self x l), List.map_cons,
      filterMap_congr_some (fun y hy => h y (List.mem_cons_of_mem x hy))]

/-- The character data of a nonempty encoding. -/
theorem arrayToCSV_cons_data (data : List Obj) (h : data ≠ []) :
    (arrayToCSV data).data = joinSep '\n' (headerLine.data :: data.map rowLine) := by
  unfold arrayToCSV
  rw [if_neg (by simp [h])]

/-- Trimming the encoding of `ds ++ [d]` back-trims only the last row. -/
theorem content_trimAux (ds : List Obj) (d : Obj) :
    trimAux (arrayToCSV (ds ++ [d])).data =
      joinSep '\n' (headerLine.data :: (ds.map rowLine ++ [trimBack (rowLine d)])) := by
  rw [arrayToCSV_cons_data _ (by simp)]
  simp only [List.map_append, List.map_cons, List.map_nil]
  have hJdecomp : joinSep '\n' (headerLine.data :: (ds.map rowLine ++ [rowLine d]))
      = joinSep '\n' (headerLine.data :: ds.map rowLine) ++ '\n' :: rowLine d := by
    have hstep := joinSep_append_single '\n' (headerLine.data :: ds.map rowLine)
      (rowLine d) (by simp)
    simpa using hstep
  have hhead : (joinSep '\n' (headerLine.data ::
      (ds.map rowLine ++ [rowLine d]))).head? = some 'D' := by
    rw [joinSep_head _ _ _ (by decide)]
    decide
  unfold trimAux
  rw [dropWhile_eq_self_of_head hhead (by decide), hJdecomp]
  have hgroup : joinSep '\n' (headerLine.data :: ds.map rowLine) ++ '\n' :: rowLine d
      = (joinSep '\n' (headerLine.data :: ds.map rowLine) ++ ['\n']) ++ rowLine d := by
    simp
  rw [hgroup, trimBack_append_keep _ _ ⟨',', comma_mem_rowLine d, by decide⟩]
  have hregroup : (joinSep '\n' (headerLine.data :: ds.map rowLine) ++ ['\n']) ++
      trimBack (rowLine d)
      = joinSep '\n' (headerLine.data :: ds.map rowLine) ++ '\n' :: trimBack (rowLine d) := by
    simp
  rw [hregroup, ← joinSep_append_single '\n' (headerLine.data :: ds.map rowLine)
    (trimBack (rowLine d)) (by simp)]
  simp

/-- The trimmed encoding of `ds ++ [d]` splits into the header line, the
rows of `ds`, and the back-trimmed row of `d`. -/
theorem content_lines (ds : List Obj) (d : Obj)
    (hnl : ∀ row ∈ ds ++ [d], ∀ h ∈ CSV_HEADERS, '\n' ∉ (jsGetD row h).data) :
    splitOnChar '\n' (trimAux (arrayToCSV (ds ++ [d])).data) =
      headerLine.data :: (ds.map rowLine ++ [trimBack (rowLine d)]) := by
  rw [content_trimAux]
  apply splitOnChar_joinSep _ (by simp)
  intro part hpart
  rcases List.mem_cons.mp hpart with rfl | hpart2
  · decide
  · rcases List.mem_append.mp hpart2 with hmem | hlast
    · obtain ⟨row, hrow, rfl⟩ := List.mem_map.mp hmem
      exact rowLine_no_newline (hnl row (List.mem_append_left _ hrow))
    · have hp : part = trimBack (rowLine d) := by simpa using hlast
      subst hp
      intro hcon
      exact rowLine_no_newline (hnl d (by simp)) (mem_of_mem_trimBack hcon)

set_option maxHeartbeats 1000000 in
/-- Decoding the encoding of a collection of newline-free records decodes
row by row (the general shape behind the round-trip law). -/
theorem csvToArray_arrayToCSV_gen (data : List Obj)
    (hnl : ∀ row ∈ data, ∀ h ∈ CSV_HEADERS, '\n' ∉ (jsGetD row h).data) :
    csvToArray (arrayToCSV data) =
      data.map (fun row => buildObj CSV_HEADERS (parseCSVLine ⟨rowLine row⟩)) := by
  rcases List.eq_nil_or_concat' data with rfl | ⟨ds, d, rfl⟩
  · simpa using csvToArray_initial
  · have hlines : csvLinesOf (arrayToCSV (ds ++ [d])) =
        headerLine :: ((ds.map rowLine ++ [trimBack (rowLine d)]).map
          (fun cs => (⟨cs⟩ : String))) := by
      unfold csvLinesOf
      rw [show (jsTrim (arrayToCSV (ds ++ [d]))).data
          = trimAux (arrayToCSV (ds ++ [d])).data from rfl]
      rw [content_lines ds d hnl]
      rfl
    have hheaders : csvHeadersOf (arrayToCSV (ds ++ [d])) = CSV_HEADERS := by
      unfold csvHeadersOf
      rw [hlines]
      exact headers_of_headerLine
    have htrimne : ¬(jsTrim (arrayToCSV (ds ++ [d])) == "") = true := by
      simp only [beq_iff_eq]
      intro hcon
      have hd2 : trimAux (arrayToCSV (ds ++ [d])).data = [] :=
        congrArg String.data hcon
      rw [content_trimAux ds d] at hd2
      have hh2 := joinSep_head '\n' headerLine.data
        (ds.map rowLine ++ [trimBack (rowLine d)]) (by decide)
      rw [hd2] at hh2
      exact absurd hh2.symm (by decide)
    unfold csvToArray
    rw [if_neg htrimne, hlines, hheaders]
    simp only [List.drop_succ_cons, List.drop_zero]
    rw [List.filterMap_map]
    have hbody : ((ds.map rowLine ++ [trimBack (rowLine d)]).filterMap
        ((fun line => if jsTrim line == "" then none
          else some (buildObj CSV_HEADERS (parseCSVLine line))) ∘
         (fun cs => (⟨cs⟩ : String))))
        = (ds.map rowLine ++ [trimBack (rowLine d)]).map
            (fun cs => buildObj CSV_HEADERS (parseCSVLine ⟨cs⟩)) := by
      apply filterMap_congr_some
      intro cs hcs
      rcases List.mem_append.mp hcs with hmem | hlast
      · obtain ⟨row, _, rfl⟩ := List.mem_map.mp hmem
        have hneg : ¬((jsTrim ⟨rowLine row⟩ == "") = true) := by
          simp [jsTrim_rowLine_ne row]
        simp only [Function.comp_apply]
        rw [if_neg hneg]
      · have hp : cs = trimBack (rowLine d) := by simpa using hlast
        subst hp
        have hneg : ¬((jsTrim ⟨trimBack (rowLine d)⟩ == "") = true) := by
          simp [jsTrim_trimBack_rowLine_ne d]
        simp only [Function.comp_apply]
        rw [if_neg hneg]
    rw [hbody, List.map_append, List.map_map, List.map_append]
    congr 1
    all_goals
      first
      | rfl
      | (simp only [List.map_cons, List.map_nil, Function.comp_apply]
         rw [show parseCSVLine ⟨trimBack (rowLine d)⟩ = parseCSVLine ⟨rowLine d⟩
           from parseCSVLine_trimBack (rowLine d)])

/-! ## Shape of decoded records -/

/-- A pair of `objSet o k v` is a pair of `o` or the new binding. -/
theorem objSet_mem : ∀ {o : Obj} {k v : String} {kv : String × String},
    kv ∈ objSet o k v → kv ∈ o ∨ (kv.1 = k ∧ kv.2 = v)
  | [], _, _, _, h => by
    simp only [objSet, List.mem_singleton] at h
    exact Or.inr (by simp [h])
  | (k', v') :: rest, k, v, kv, h => by
    simp only [objSet] at h
    by_cases hk : (k' == k) = true
    · rw [if_pos hk] at h
      rcases List.mem_cons.mp h with rfl | hmem
      · exact Or.inr ⟨by simpa using hk, rfl⟩
      · exact Or.inl (List.mem_cons_of_mem _ hmem)
    · rw [if_neg hk] at h
      rcases List.mem_cons.mp h with rfl | hmem
      · exact Or.inl (List.mem_cons_self _ _)
      · rcases objSet_mem hmem with hin | hnew
        · exact Or.inl (List.mem_cons_of_mem _ hin)
        · exact Or.inr hnew

/-- A pair of the record-building fold is a header binding. -/
theorem foldl_objSet_mem {β : Type} (f : β → String) (g : β → String) :
    ∀ (l : List β) (init : Obj) {kv : String × String},
    kv ∈ l.foldl (fun o p => objSet o (f p) (g p)) init →
    kv ∈ init ∨ ∃ p ∈ l, kv.1 = f p ∧ kv.2 = g p
  | [], init, kv, h => Or.inl h
  | p :: l, init, kv, h => by
    rcases foldl_objSet_mem f g l (objSet init (f p) (g p)) h with hin | ⟨q, hq, hfq⟩
    · rcases objSet_mem hin with hin2 | hnew
      · exact Or.inl hin2
      · exact Or.inr ⟨p, List.mem_cons_self p l, hnew⟩
    · exact Or.inr ⟨q, List.mem_cons_of_mem p hq, hfq⟩

/-- `List.getD` yields the default or a member. -/
theorem getD_mem_or {α : Type} (l : List α) (i : Nat) (d : α) :
    l.getD i d = d ∨ l.getD i d ∈ l := by
  rw [List.getD_eq_getElem?_getD]
  cases hx : l[i]? with
  | none => left; rfl
  | some x => right; exact List.getElem?_mem hx

/-- Every pair of `buildObj headers values` has a header key and a value
that is `""` or one of `values`. -/
theorem buildObj_mem {headers values : List String} {kv : String × String}
    (h : kv ∈ buildObj headers values) :
    kv.1 ∈ headers ∧ (kv.2 = "" ∨ kv.2 ∈ values) := by
  unfold buildObj at h
  rcases foldl_objSet_mem (fun p => p.2) (fun p => values.getD p.1 "") headers.enum []
      h with hin | ⟨p, hp, hk, hv⟩
  · cases hin
  · constructor
    · rw [hk]
      have hsnd := List.enum_map_snd headers
      exact hsnd ▸ List.mem_map_of_mem Prod.snd hp
    · rw [hv]
      rcases getD_mem_or values p.1 "" with hd | hm
      · exact Or.inl hd
      · exact Or.inr hm

/-- `jsGetD` yields `""` or the value of a binding. -/
theorem jsGetD_cases (o : Obj) (k : String) :
    jsGetD o k = "" ∨ ∃ kv ∈ o, jsGetD o k = kv.2 := by
  unfold jsGetD jsFind
  cases hf : o.find? (fun p => p.1 == k) with
  | none => left; rfl
  | some kv => right; exact ⟨kv, List.mem_of_find?_eq_some hf, rfl⟩

/-- Every field value produced by `parseAux` is the trim of characters drawn
from the accumulator and the input, quotes excluded. -/
theorem parseAux_out : ∀ (cs cur : List Char) (q : Bool), ∀ v ∈ parseAux cs cur q,
    ∃ x, v = jsTrim ⟨x⟩ ∧ ∀ ch ∈ x, ch ∈ cur ∨ (ch ∈ cs ∧ ch ≠ '"')
  | [], cur, q, v, hv => by
    have hveq : v = jsTrim ⟨cur⟩ := by simpa [parseAux] using hv
    exact ⟨cur, hveq, fun ch hch => Or.inl hch⟩
  | c :: cs, cur, q, v, hv => by
    simp only [parseAux] at hv
    by_cases h1 : (c == '"') = true
    · rw [if_pos h1] at hv
      obtain ⟨x, hx, hchars⟩ := parseAux_out cs cur (!q) v hv
      exact ⟨x, hx, fun ch hch => by
        rcases hchars ch hch with hc | ⟨hc, hne⟩
        · exact Or.inl hc
        · exact Or.inr ⟨List.mem_cons_of_mem c hc, hne⟩⟩
    · rw [if_neg h1] at hv
      by_cases h2 : (c == ',' && !q) = true
      · rw [if_pos h2] at hv
        rcases List.mem_cons.mp hv with rfl | hv2
        · exact ⟨cur, rfl, fun ch hch => Or.inl hch⟩
        · obtain ⟨x, hx, hchars⟩ := parseAux_out cs [] false v hv2
          exact ⟨x, hx, fun ch hch => by
            rcases hchars ch hch with hc | ⟨hc, hne⟩
            · cases hc
            · exact Or.inr ⟨List.mem_cons_of_mem c hc, hne⟩⟩
      · rw [if_neg h2] at hv
        obtain ⟨x, hx, hchars⟩ := parseAux_out cs (cur ++ [c]) q v hv
        refine ⟨x, hx, fun ch hch => ?_⟩
        rcases hchars ch hch with hc | ⟨hc, hne⟩
        · rcases List.mem_append.mp hc with hcc | hcc
          · exact Or.inl hcc
          · have hcceq : ch = c := by simpa using hcc
            subst hcceq
            refine Or.inr ⟨List.mem_cons_self ch cs, ?_⟩
            intro hcon
            rw [hcon] at h1
            simp at h1
        · exact Or.inr ⟨List.mem_cons_of_mem c hc, hne⟩

/-- Characters of a part of `splitOnChar` are input characters other than
the separator. -/
theorem splitOnChar_mem {sep : Char} : ∀ {cs : List Char}
    {part : List Char} {c : Char}, part ∈ splitOnChar sep cs → c ∈ part →
    c ∈ cs ∧ c ≠ sep
  | [], part, c, hpart, hc => by
    have hp : part = [] := by simpa [splitOnChar] using hpart
    subst hp
    cases hc
  | d :: cs, part, c, hpart, hc => by
    by_cases hd : (d == sep) = true
    · simp only [splitOnChar, if_pos hd] at hpart
      rcases List.mem_cons.mp hpart with rfl | hmem
      · cases hc
      · have hres := splitOnChar_mem hmem hc
        exact ⟨List.mem_cons_of_mem d hres.1, hres.2⟩
    · simp only [splitOnChar, if_neg hd] at hpart
      cases hrec : splitOnChar sep cs with
      | nil => exact absurd hrec (splitOnChar_ne_nil sep cs)
      | cons p ps =>
        rw [hrec] at hpart
        rcases List.mem_cons.mp hpart with rfl | hmem
        · rcases List.mem_cons.mp hc with rfl | hcp
          · refine ⟨List.mem_cons_self c cs, ?_⟩
            intro hcon
            rw [hcon] at hd
            simp at hd
          · have hres := splitOnChar_mem (hrec ▸ List.mem_cons_self p ps) hcp
            exact ⟨List.mem_cons_of_mem d hres.1, hres.2⟩
        · have hres := splitOnChar_mem (hrec ▸ List.mem_cons_of_mem p hmem) hc
          exact ⟨List.mem_cons_of_mem d hres.1, hres.2⟩

/-- `buildObj` against the canonical headers, explicitly. -/
theorem buildObj_canonical (vals : List String) :
    buildObj CSV_HEADERS vals =
      [("Date", vals.getD 0 ""), ("Context", vals.getD 1 ""),
       ("Project/Task", vals.getD 2 ""), ("Skills & Tools", vals.getD 3 ""),
       ("Outcome/Deliverable", vals.getD 4 ""), ("Time Spent", vals.getD 5 ""),
       ("Key Learnings/Challenges", vals.getD 6 ""), ("Next Steps", vals.getD 7 ""),
       ("Status", vals.getD 8 ""), ("Tags", vals.getD 9 "")] := rfl

/-- Records built against the canonical headers carry the canonical keys. -/
theorem buildObj_canonical_keys (vals : List String) :
    (buildObj CSV_HEADERS vals).map Prod.fst = CSV_HEADERS := by
  rw [buildObj_canonical]
  rfl

/-- Every decoded record has trimmed keys and trimmed, quote-free,
newline-free values. -/
theorem csvToArray_good (s : String) : ∀ o ∈ csvToArray s, ∀ kv ∈ o,
    jsTrim kv.1 = kv.1 ∧ '"' ∉ (kv.2 : String).data ∧
    '\n' ∉ (kv.2 : String).data ∧ jsTrim kv.2 = kv.2 := by
  intro o ho kv hkv
  unfold csvToArray at ho
  split at ho
  · cases ho
  · obtain ⟨line, hline, heq⟩ := List.mem_filterMap.mp ho
    split at heq
    · cases heq
    · have ho2 : o = buildObj (csvHeadersOf s) (parseCSVLine line) := by
        cases heq
        rfl
      subst ho2
      obtain ⟨hkey, hval⟩ := buildObj_mem hkv
      constructor
      · -- keys are trims of split header parts
        unfold csvHeadersOf at hkey
        obtain ⟨t, _, hteq⟩ := List.mem_map.mp hkey
        rw [← hteq]
        exact jsTrim_idem t
      · -- values are "" or parser output
        rcases hval with hempty | hmem
        · rw [hempty]
          refine ⟨by simp, by simp, rfl⟩
        · obtain ⟨x, hxeq, hchars⟩ := parseAux_out line.data [] false kv.2 hmem
          have hchars2 : ∀ ch ∈ (kv.2 : String).data,
              ch ∈ line.data ∧ ch ≠ '"' := by
            intro ch hch
            rw [hxeq] at hch
            have hchx : ch ∈ x := mem_of_mem_trimAux hch
            rcases hchars ch hchx with hc | hc
            · cases hc
            · exact hc
          have hlinemem : ∀ ch ∈ line.data, ch ≠ '\n' := by
            have hL : line ∈ csvLinesOf s := List.drop_subset 1 _ hline
            obtain ⟨part, hpart, rfl⟩ := List.mem_map.mp hL
            intro ch hch
            exact (splitOnChar_mem hpart hch).2
          refine ⟨?_, ?_, ?_⟩
          · intro hcon
            exact (hchars2 _ hcon).2 rfl
          · intro hcon
            exact hlinemem _ (hchars2 _ hcon).1 rfl
          · rw [hxeq]
            exact jsTrim_idem ⟨x⟩

/-- Rebuilding an object from duplicate-free keys by lookup reproduces it. -/
theorem map_jsGetD_eq : ∀ (row : Obj) (ks : List String),
    row.map Prod.fst = ks → ks.Nodup →
    ks.map (fun h => (h, jsGetD row h)) = row
  | [], ks, hkeys, _ => by
    have hk : ks = [] := by simpa using hkeys.symm
    subst hk
    rfl
  | (k, v) :: row, ks, hkeys, hnd => by
    have hk : ks = k :: row.map Prod.fst := by simpa using hkeys.symm
    subst hk
    have hnd2 := List.nodup_cons.mp hnd
    have hself : jsGetD ((k, v) :: row) k = v := by
      simp [jsGetD, jsFind, List.find?]
    have hrest : ∀ h ∈ row.map Prod.fst,
        jsGetD ((k, v) :: row) h = jsGetD row h := by
      intro h hh
      have hne : ¬((k == h) = true) := by
        simp only [beq_iff_eq]
        intro hcon
        exact hnd2.1 (hcon ▸ hh)
      simp [jsGetD, jsFind, List.find?, hne]
    rw [List.map_cons, hself,
      List.map_congr_left (fun h hh => by rw [hrest h hh]),
      map_jsGetD_eq row (row.map Prod.fst) rfl hnd2.2]

/-- Decoding one encoded canonical row with trimmed, quote-free,
newline-free values reproduces the row. -/
theorem decodeRow_id (row : Obj)
    (hkeys : row.map Prod.fst = CSV_HEADERS)
    (hgood : ∀ kv ∈ row, '"' ∉ (kv.2 : String).data ∧
      '\n' ∉ (kv.2 : String).data ∧ jsTrim kv.2 = kv.2) :
    buildObj CSV_HEADERS (parseCSVLine ⟨rowLine row⟩) = row := by
  have hvals : ∀ h ∈ CSV_HEADERS,
      '"' ∉ (jsGetD row h).data ∧ '\n' ∉ (jsGetD row h).data := by
    intro h _
    rcases jsGetD_cases row h with hempty | ⟨kv, hkv, heq⟩
    · rw [hempty]
      exact ⟨by simp, by simp⟩
    · rw [heq]
      exact ⟨(hgood kv hkv).1, (hgood kv hkv).2.1⟩
  rw [decodeRow_eq row hvals]
  have htr : ∀ h ∈ CSV_HEADERS, jsTrim (jsGetD row h) = jsGetD row h := by
    intro h _
    rcases jsGetD_cases row h with hempty | ⟨kv, hkv, heq⟩
    · rw [hempty]; rfl
    · rw [heq]
      exact (hgood kv hkv).2.2
  rw [List.map_congr_left (fun h hh => by rw [htr h hh])]
  exact map_jsGetD_eq row CSV_HEADERS hkeys (by decide)

/-- The round-trip law in its provable form: decoding the encoding of a
collection of canonical-keyed records with trimmed, quote-free,
newline-free values reproduces the collection. -/
theorem roundtrip_canonical (data : List Obj)
    (hkeys : ∀ o ∈ data, o.map Prod.fst = CSV_HEADERS)
    (hgood : ∀ o ∈ data, ∀ kv ∈ o, '"' ∉ (kv.2 : String).data ∧
      '\n' ∉ (kv.2 : String).data ∧ jsTrim kv.2 = kv.2) :
    csvToArray (arrayToCSV data) = data := by
  rw [csvToArray_arrayToCSV_gen data (by
    intro row hrow h _
    rcases jsGetD_cases row h with hempty | ⟨kv, hkv, heq⟩
    · rw [hempty]; simp
    · rw [heq]; exact (hgood row hrow kv hkv).2.1)]
  rw [List.map_congr_left (fun o ho => decodeRow_id o (hkeys o ho) (hgood o ho))]
  exact List.map_id data

/-! ## Character provenance and transport-encoding feasibility -/

/-- A successful `btoa` certifies Latin-1 input. -/
theorem btoa_latin1 {s t : String} (h : btoa s = some t) :
    ∀ ch ∈ s.data, ch.toNat < 256 := by
  unfold btoa at h
  split at h
  · rename_i hall
    intro ch hch
    exact of_decide_eq_true (List.all_eq_true.mp hall ch hch)
  · exact absurd h (by simp)

/-- `btoa` succeeds on Latin-1 input. -/
theorem btoa_isSome {s : String} (h : ∀ ch ∈ s.data, ch.toNat < 256) :
    btoa s = some ⟨encB64 (s.data.map Char.toNat)⟩ := by
  unfold btoa
  rw [if_pos (List.all_eq_true.mpr (fun ch hch => decide_eq_true (h ch hch)))]

/-- Characters of an encoding come from the header, the separators, the
quoting, or the records' canonical field values. -/
theorem mem_arrayToCSV {ch : Char} {data : List Obj}
    (h : ch ∈ (arrayToCSV data).data) :
    ch ∈ headerLine.data ∨ ch = '\n' ∨ ch = ',' ∨ ch = '"' ∨
    ∃ row ∈ data, ∃ hd ∈ CSV_HEADERS, ch ∈ (jsGetD row hd).data := by
  by_cases hdata : data.isEmpty = true
  · unfold arrayToCSV at h
    rw [if_pos hdata, String.data_append] at h
    rcases List.mem_append.mp h with hh | hh
    · exact Or.inl hh
    · exact Or.inr (Or.inl (by simpa using hh))
  · rw [show (arrayToCSV data).data
        = joinSep '\n' (headerLine.data :: data.map rowLine) from
      arrayToCSV_cons_data data (by simpa using hdata)] at h
    rcases mem_joinSep h with rfl | ⟨part, hpart, hc⟩
    · exact Or.inr (Or.inl rfl)
    · rcases List.mem_cons.mp hpart with rfl | hrow
      · exact Or.inl hc
      · obtain ⟨row, hrowmem, rfl⟩ := List.mem_map.mp hrow
        rcases mem_joinSep hc with rfl | ⟨fpart, hfpart, hfc⟩
        · exact Or.inr (Or.inr (Or.inl rfl))
        · obtain ⟨hd, hhd, rfl⟩ := List.mem_map.mp hfpart
          rcases mem_encodeField hfc with rfl | hval
          · exact Or.inr (Or.inr (Or.inr (Or.inl rfl)))
          · exact Or.inr (Or.inr (Or.inr (Or.inr ⟨row, hrowmem, hd, hhd, hval⟩)))

/-- Characters of decoded field values come from the decoded text. -/
theorem csvToArray_value_chars (s : String) : ∀ o ∈ csvToArray s, ∀ kv ∈ o,
    ∀ ch ∈ (kv.2 : String).data, ch ∈ s.data := by
  intro o ho kv hkv ch hch
  unfold csvToArray at ho
  split at ho
  · cases ho
  · obtain ⟨line, hline, heq⟩ := List.mem_filterMap.mp ho
    split at heq
    · cases heq
    · have ho2 : o = buildObj (csvHeadersOf s) (parseCSVLine line) := by
        cases heq
        rfl
      subst ho2
      obtain ⟨_, hval⟩ := buildObj_mem hkv
      rcases hval with hempty | hmem
      · rw [hempty] at hch
        cases hch
      · obtain ⟨x, hxeq, hchars⟩ := parseAux_out line.data [] false kv.2 hmem
        rw [hxeq] at hch
        have hchx : ch ∈ x := mem_of_mem_trimAux hch
        rcases hchars ch hchx with hc | ⟨hc, _⟩
        · cases hc
        · have hL : line ∈ csvLinesOf s := List.drop_subset 1 _ hline
          obtain ⟨part, hpart, rfl⟩ := List.mem_map.mp hL
          have hres := splitOnChar_mem hpart hc
          exact mem_of_mem_trimAux hres.1

/-- Keys of decoded records are the parsed header names. -/
theorem csvToArray_keys {s : String} (hh : csvHeadersOf s = CSV_HEADERS) :
    ∀ o ∈ csvToArray s, o.map Prod.fst = CSV_HEADERS := by
  intro o ho
  unfold csvToArray at ho
  split at ho
  · cases ho
  · obtain ⟨line, _, heq⟩ := List.mem_filterMap.mp ho
    split at heq
    · cases heq
    · have ho2 : o = buildObj (csvHeadersOf s) (parseCSVLine line) := by
        cases heq
        rfl
      subst ho2
      rw [hh]
      exact buildObj_canonical_keys _

/-- Removing the appended last element restores the list. -/
theorem eraseIdx_concat {α : Type} : ∀ (l : List α) (x : α),
    (l ++ [x]).eraseIdx l.length = l
  | [], x => rfl
  | a :: l, x => by
    show ((a :: (l ++ [x])).eraseIdx (l.length + 1)) = a :: l
    rw [List.eraseIdx_cons_succ, eraseIdx_concat l x]

/-! ## Behaviour of the client operations -/

/-- A fresh, truthy cache short-circuits `getCSVContent`. -/
theorem getCSVContent_hit {s : GHState} (srv : Server) (now : Nat)
    {b : String} {t : Nat} (hb : s.base64Content = some b) (hbne : b ≠ "")
    (hl : s.lastFetch = some t) (ht : t ≠ 0)
    (hfresh : now - t < cacheTimeout) :
    getCSVContent s srv now false = (.ok (atob b), s, srv, []) := by
  unfold getCSVContent
  rw [if_pos (by simp [truthyStr, truthyNat, hb, hl, hbne, ht, hfresh])]
  rw [hb]
  rfl

/-- A read that misses the cache fetches and stores content, token, and
timestamp. -/
theorem getCSVContent_refetch {s : GHState} {srv : Server} (now : Nat)
    {f : ServerFile}
    (hmiss : ¬((!false && truthyStr s.base64Content && truthyNat s.lastFetch &&
      decide (now - s.lastFetch.getD 0 < cacheTimeout)) = true))
    (hcfg : isConfigured s = true) (hf : srv.file = some f)
    (ht : f.typ = "file") :
    getCSVContent s srv now false =
      (.ok (atob f.enc),
       { s with base64Content := some f.enc, sha := some f.sha,
                lastFetch := some now }, srv, [.get]) := by
  unfold getCSVContent serverGet
  rw [if_neg hmiss, if_neg (by simp [hcfg]), hf]
  simp [ht]

/-- A cold cache fetches and stores content, token, and timestamp. -/
theorem getCSVContent_fetch {s : GHState} {srv : Server} (now : Nat)
    {f : ServerFile} (hcfg : isConfigured s = true)
    (hb : s.base64Content = none) (hf : srv.file = some f)
    (ht : f.typ = "file") :
    getCSVContent s srv now false =
      (.ok (atob f.enc),
       { s with base64Content := some f.enc, sha := some f.sha,
                lastFetch := some now }, srv, [.get]) :=
  getCSVContent_refetch now (by simp [truthyStr, hb]) hcfg hf ht

/-- A configured write with the matching token succeeds and supersedes both
the cache and the store with the fresh revision token. -/
theorem updateCSVContent_ok {s : GHState} {srv : Server} (now : Nat)
    {content enc : String} {f : ServerFile} (hcfg : isConfigured s = true)
    (henc : btoa content = some enc) (hf : srv.file = some f)
    (hsha : s.sha = some f.sha) :
    updateCSVContent s srv now content =
      (.ok true,
       { s with base64Content := some enc, sha := some srv.ctr,
                lastFetch := some now },
       ⟨some ⟨enc, srv.ctr, "file"⟩, srv.ctr + 1⟩, [.put]) := by
  unfold updateCSVContent serverPut
  rw [henc, hsha, hf]
  simp [hcfg]

/-- Reading while the cache matches the store returns the stored text and
keeps the matching token, whether the cache is hit or refreshed. -/
theorem getCSVContent_synced {s : GHState} {srv : Server} (now : Nat)
    {f : ServerFile} (hcfg : isConfigured s = true)
    (hb : s.base64Content = some f.enc) (hsha : s.sha = some f.sha)
    (hf : srv.file = some f) (ht : f.typ = "file") :
    ∃ s' reqs, getCSVContent s srv now false = (.ok (atob f.enc), s', srv, reqs) ∧
      isConfigured s' = true ∧ s'.sha = some f.sha ∧
      s'.base64Content = some f.enc := by
  by_cases hhit : (!false && truthyStr s.base64Content && truthyNat s.lastFetch &&
      decide (now - s.lastFetch.getD 0 < cacheTimeout)) = true
  · refine ⟨s, [], ?_, hcfg, hsha, hb⟩
    unfold getCSVContent
    rw [if_pos hhit, hb]
    rfl
  · exact ⟨_, _, getCSVContent_refetch now hhit hcfg hf ht,
      by simpa [isConfigured] using hcfg, rfl, rfl⟩

/-! ## The claims -/

/-- The decode example of the specification's testable properties. -/
def exampleCSV : String :=
  "Date,Context,Project/Task,Skills & Tools,Outcome/Deliverable,Time Spent,Key Learnings/Challenges,Next Steps,Status,Tags\n2024-01-01,\"did a, thing\",Proj,JS,Shipped,2h,Learned X,Next Y,Completed,tag1"

/-- C9: encoding the empty collection yields exactly the canonical
10-column header line followed by a single trailing newline. -/
theorem c9_encode_empty :
    arrayToCSV [] =
      "Date,Context,Project/Task,Skills & Tools,Outcome/Deliverable,Time Spent,Key Learnings/Challenges,Next Steps,Status,Tags\n" := by
  decide

/-- C7: decoding the canonical header plus the quoted-comma example line
yields exactly one record whose Context is `did a, thing` (comma kept,
quotes stripped) and whose Project/Task is `Proj`. -/
theorem c7_decode_example :
    (csvToArray exampleCSV).length = 1 ∧
    jsFind ((csvToArray exampleCSV).headD []) "Context" = some "did a, thing" ∧
    jsFind ((csvToArray exampleCSV).headD []) "Project/Task" = some "Proj" := by
  decide

/-- A quote-free record refuting the round-trip claim as stated: its Date
value carries a leading space, which decode trims away. -/
def c1ex : Obj :=
  [("Date", " x"), ("Context", ""), ("Project/Task", ""), ("Skills & Tools", ""),
   ("Outcome/Deliverable", ""), ("Time Spent", ""),
   ("Key Learnings/Challenges", ""), ("Next Steps", ""), ("Status", ""),
   ("Tags", "")]

/-- C1 (counterexample): a collection whose field values contain no quote
characters at all — hence no unescaped embedded quotes — that does not
round-trip: decode(encode([c1ex])) differs from [c1ex]. -/
theorem c1_roundtrip_counterexample :
    (c1ex.map Prod.fst = CSV_HEADERS ∧
      ∀ kv ∈ c1ex, '"' ∉ (kv.2 : String).data) ∧
    csvToArray (arrayToCSV [c1ex]) ≠ [c1ex] := by
  decide

/-- C1 (amended): decoding the encoding of a collection of canonical-keyed
records whose field values are free of quote characters, free of newlines,
and carry no leading or trailing whitespace reproduces the collection
field-for-field, record-for-record, in order. -/
theorem c1_roundtrip (c : List Obj)
    (hkeys : ∀ o ∈ c, o.map Prod.fst = CSV_HEADERS)
    (hgood : ∀ o ∈ c, ∀ kv ∈ o, '"' ∉ (kv.2 : String).data ∧
      '\n' ∉ (kv.2 : String).data ∧ jsTrim kv.2 = kv.2) :
    csvToArray (arrayToCSV c) = c :=
  roundtrip_canonical c hkeys hgood

/-- A concrete record for the round-trip witness. -/
def c1wit : Obj :=
  [("Date", "2024-01-01"), ("Context", "built, a thing"), ("Project/Task", "Proj"),
   ("Skills & Tools", "JS"), ("Outcome/Deliverable", "Shipped"),
   ("Time Spent", "2h"), ("Key Learnings/Challenges", "Learned X"),
   ("Next Steps", "Next Y"), ("Status", "Completed"), ("Tags", "tag1")]

/-- C1 witness: the amended round-trip at a concrete one-record collection. -/
theorem c1_roundtrip_witness : csvToArray (arrayToCSV [c1wit]) = [c1wit] :=
  c1_roundtrip [c1wit] (by decide) (by decide)

/-- C10: decode trims every parsed field value and every header name — no
decoded field name or value begins or ends with whitespace, whatever the
raw CSV text carries. -/
theorem c10_decode_trims (csvString : String) :
    ∀ rec ∈ csvToArray csvString, ∀ kv ∈ rec,
      jsTrim kv.1 = kv.1 ∧ jsTrim kv.2 = kv.2 := by
  intro rec hrec kv hkv
  have hg := csvToArray_good csvString rec hrec kv hkv
  exact ⟨hg.1, hg.2.2.2⟩

/-- C10 witness: the trimming guarantee applied to a raw text with padded
header name and padded quoted value. -/
theorem c10_decode_trims_witness :
    jsTrim "H" = "H" ∧ jsTrim "v" = "v" :=
  c10_decode_trims " H \n \" v \" " [("H", "v")] (by decide) ("H", "v") (by decide)

/-- `searchMatch` holds exactly on present, non-empty fields containing the
term. -/
theorem searchMatch_iff (term : String) (item : Obj) (field : String) :
    searchMatch term item field = true ↔
      ∃ v, jsFind item field = some v ∧ v ≠ "" ∧
        jsIncludes (jsToLower v) term = true := by
  unfold searchMatch
  cases h : jsFind item field with
  | none => simp
  | some v => simp [Bool.and_eq_true]

/-- The single-record collection on which the claim's predicate and the
code disagree for the term `"js "`. -/
def c8ex : List Obj := [[("Context", "ajsb")]]

/-- C8 (counterexample): for the non-empty search term `"js "`, the search
step does not keep exactly the records with a field containing the term
case-insensitively — the code first trims the term and therefore keeps a
record the claim's predicate rejects. -/
theorem c8_search_counterexample :
    filterArray c8ex "js " SEARCH_FIELDS ≠
      c8ex.filter (fun item => SEARCH_FIELDS.any (fun f =>
        jsIncludes (jsToLower (jsGetD item f)) (jsToLower "js "))) := by
  decide

/-- C8 (amended): for every record collection and every search term that
does not trim to the blank string, the search step keeps exactly those
records for which at least one of the six search fields is present,
non-empty, and contains the lowercased *trimmed* term case-insensitively;
searching `thing` on the decode example keeps exactly that record, and
searching `zzz` keeps nothing. -/
theorem c8_search :
    (∀ (array : List Obj) (searchTerm : String) (item : Obj),
      ¬(jsTrim searchTerm = "") →
      (item ∈ filterArray array searchTerm SEARCH_FIELDS ↔
        item ∈ array ∧ ∃ f ∈ SEARCH_FIELDS, ∃ v, jsFind item f = some v ∧
          v ≠ "" ∧ jsIncludes (jsToLower v) (jsTrim (jsToLower searchTerm)) = true)) ∧
    filterArray (csvToArray exampleCSV) "thing" SEARCH_FIELDS =
      csvToArray exampleCSV ∧
    filterArray (csvToArray exampleCSV) "zzz" SEARCH_FIELDS = [] := by
  refine ⟨?_, by decide, by decide⟩
  intro array searchTerm item hterm
  unfold filterArray
  rw [if_neg (by simp [hterm])]
  rw [List.mem_filter]
  simp only [List.any_eq_true, searchMatch_iff]

/-- C8 witness: the amended characterization applied at a concrete
collection and term. -/
theorem c8_search_witness :
    [("Context", "xjs")] ∈ filterArray [[("Context", "xjs")]] "JS" SEARCH_FIELDS :=
  (c8_search.1 [[("Context", "xjs")]] "JS" [("Context", "xjs")] (by decide)).mpr
    ⟨by decide, "Context", by decide, "xjs", by decide, by decide, by decide⟩

/-- A view state on page 2 with no records, for the search prong. -/
def c3exA : AppState := ⟨[], [], "", "", "", "", "Date", "desc", 2, 50⟩

/-- A view state on page 2 with 30 filtered records, for the page-size
prong. -/
def c3exB : AppState :=
  ⟨List.replicate 30 [], List.replicate 30 [], "", "", "", "", "Date", "desc", 2, 50⟩

/-- C3 (counterexample): after a search-term change the page index stays at
2 instead of resetting to 1; after a page-size change to 10 — under which
page 2 is still in range of the 30 filtered records — the page index is
reset to 1 instead of persisting. -/
theorem c3_pagination_counterexample :
    (c3exA.currentPage = 2 ∧ (onSearchInput c3exA "x").currentPage = 2) ∧
    (c3exB.currentPage = 2 ∧ c3exB.currentPage * 10 ≤ c3exB.filteredRecords.length ∧
      (onPageSizeChange c3exB 10).currentPage = 1) := by
  decide

/-- C3 (amended): a change to the search term, to any of the three field
filters, or to the sort field/direction leaves the current page index
unchanged; a change to the page size unconditionally resets the current
page index to 1. -/
theorem c3_pagination (s : AppState) (v field : String) (n : Nat) :
    (onSearchInput s v).currentPage = s.currentPage ∧
    (onStatusFilterChange s v).currentPage = s.currentPage ∧
    (onProjectFilterChange s v).currentPage = s.currentPage ∧
    (onDateFilterChange s v).currentPage = s.currentPage ∧
    (sortByField s field).currentPage = s.currentPage ∧
    (onPageSizeChange s n).currentPage = 1 := by
  refine ⟨rfl, rfl, rfl, rfl, ?_, rfl⟩
  unfold sortByField applyFilters
  split <;> rfl

/-- C2: a write submitted while the cached revision token no longer matches
the store's current token fails — the store rejects it with the conflict
status 409, surfaced by `makeRequest` as the API error carrying that
status — after a single request, with no retry, and the local cache fields
(content, revision token, fetch timestamp) and the store left exactly as
they were. -/
theorem c2_stale_write_conflict (s : GHState) (srv : Server) (now : Nat)
    (content enc : String) (f : ServerFile) (h : Nat)
    (hcfg : isConfigured s = true) (henc : btoa content = some enc)
    (hf : srv.file = some f) (hsha : s.sha = some h) (hstale : h ≠ f.sha) :
    updateCSVContent s srv now content =
      (.error (.apiError 409), s, srv, [.put]) := by
  unfold updateCSVContent serverPut
  rw [henc, hsha, hf]
  have hne : ¬((some h == some f.sha) = true) := by
    simp [hstale]
  simp [hcfg, hne, mapStatus]

/-- C2 witness: the conflict behaviour at a concrete stale client. -/
theorem c2_stale_write_conflict_witness :
    updateCSVContent ⟨"me", "r", some "QQ==", some 5, some 1⟩
        ⟨some ⟨"RA==", 7, "file"⟩, 8⟩ 100 "A" =
      (.error (.apiError 409), ⟨"me", "r", some "QQ==", some 5, some 1⟩,
       ⟨some ⟨"RA==", 7, "file"⟩, 8⟩, [.put]) :=
  c2_stale_write_conflict ⟨"me", "r", some "QQ==", some 5, some 1⟩
    ⟨some ⟨"RA==", 7, "file"⟩, 8⟩ 100 "A" "QQ==" ⟨"RA==", 7, "file"⟩ 5
    (by decide) (by decide) rfl rfl (by decide)

/-- A write creating the file: the store is empty and no token is cached. -/
theorem updateCSVContent_create {s : GHState} {srv : Server} (now : Nat)
    {content enc : String} (hcfg : isConfigured s = true)
    (henc : btoa content = some enc) (hf : srv.file = none)
    (hsha : s.sha = none) :
    updateCSVContent s srv now content =
      (.ok true,
       { s with base64Content := some enc, sha := some srv.ctr,
                lastFetch := some now },
       ⟨some ⟨enc, srv.ctr, "file"⟩, srv.ctr + 1⟩, [.put]) := by
  unfold updateCSVContent serverPut
  rw [henc, hsha, hf]
  simp [hcfg]

/-- C5: a first read against a store that reports the file as not found
does not fail: it writes back an initial blob whose content is exactly the
canonical 10-column header row followed by a newline, and returns that
content. -/
theorem c5_not_found_creates (s : GHState) (srv : Server) (now : Nat)
    (hcfg : isConfigured s = true) (hb : s.base64Content = none)
    (hsha : s.sha = none) (hf : srv.file = none) :
    ∃ enc s' srv',
      getCSVContent s srv now false = (.ok initialCSV, s', srv', [.get, .put]) ∧
      srv'.file = some ⟨enc, srv.ctr, "file"⟩ ∧
      atob enc = initialCSV ∧
      initialCSV =
        "Date,Context,Project/Task,Skills & Tools,Outcome/Deliverable,Time Spent,Key Learnings/Challenges,Next Steps,Status,Tags\n" := by
  have henc : btoa initialCSV = some ⟨encB64 (initialCSV.data.map Char.toNat)⟩ :=
    btoa_isSome (by decide)
  have heq : getCSVContent s srv now false =
      (.ok initialCSV,
       { s with base64Content := some ⟨encB64 (initialCSV.data.map Char.toNat)⟩,
                sha := some srv.ctr, lastFetch := some now },
       ⟨some ⟨⟨encB64 (initialCSV.data.map Char.toNat)⟩, srv.ctr, "file"⟩,
        srv.ctr + 1⟩, [.get, .put]) := by
    unfold getCSVContent serverGet createInitialCSV
    rw [if_neg (by simp [truthyStr, hb]), if_neg (by simp [hcfg]), hf,
      updateCSVContent_create now hcfg henc hf hsha]
    simp [mapStatus, errMentions404]
  exact ⟨⟨encB64 (initialCSV.data.map Char.toNat)⟩, _, _, heq, rfl,
    atob_btoa henc, by decide⟩

/-- C5 witness: the not-found creation at a concrete client and store. -/
theorem c5_not_found_creates_witness :
    ∃ enc s' srv',
      getCSVContent ⟨"me", "r", none, none, none⟩ ⟨none, 0⟩ 100 false =
        (.ok initialCSV, s', srv', [.get, .put]) ∧
      srv'.file = some ⟨enc, 0, "file"⟩ ∧
      atob enc = initialCSV ∧
      initialCSV =
        "Date,Context,Project/Task,Skills & Tools,Outcome/Deliverable,Time Spent,Key Learnings/Challenges,Next Steps,Status,Tags\n" :=
  c5_not_found_creates ⟨"me", "r", none, none, none⟩ ⟨none, 0⟩ 100
    (by decide) rfl rfl rfl

/-- The cache state refuting the read-caching claim as stated: a cached
value exists (`some ""`) and is fresh, yet the read goes to the network,
because the empty cached string is falsy. -/
def c4s : GHState := ⟨"me", "r", some "", some 0, some 5⟩

/-- The store for the C4 counterexample. -/
def c4srv : Server := ⟨some ⟨"QQ==", 0, "file"⟩, 1⟩

/-- C4 (counterexample): a cache state whose cached content exists and was
fetched less than the timeout ago, on which a read without `forceRefresh`
still performs a network request. -/
theorem c4_read_cache_counterexample :
    c4s.base64Content.isSome = true ∧ c4s.lastFetch = some 5 ∧
    6 - 5 < cacheTimeout ∧
    (getCSVContent c4s c4srv 6 false).2.2.2 ≠ [] := by
  decide

/-- A read that misses the cache against a non-file path errors. -/
theorem getCSVContent_notAFile {s : GHState} {srv : Server} (now : Nat)
    {f : ServerFile}
    (hmiss : ¬((!false && truthyStr s.base64Content && truthyNat s.lastFetch &&
      decide (now - s.lastFetch.getD 0 < cacheTimeout)) = true))
    (hcfg : isConfigured s = true) (hf : srv.file = some f)
    (htyp : ¬(f.typ = "file")) :
    getCSVContent s srv now false = (.error .notAFile, s, srv, [.get]) := by
  unfold getCSVContent serverGet
  rw [if_neg hmiss, if_neg (by simp [hcfg]), hf]
  simp [htyp]

/-- A read that misses the cache against an absent file with no cached
token creates and returns the initial content. -/
theorem getCSVContent_create {s : GHState} {srv : Server} (now : Nat)
    (hmiss : ¬((!false && truthyStr s.base64Content && truthyNat s.lastFetch &&
      decide (now - s.lastFetch.getD 0 < cacheTimeout)) = true))
    (hcfg : isConfigured s = true) (hf : srv.file = none)
    (hsha : s.sha = none) :
    getCSVContent s srv now false =
      (.ok initialCSV,
       { s with base64Content := some ⟨encB64 (initialCSV.data.map Char.toNat)⟩,
                sha := some srv.ctr, lastFetch := some now },
       ⟨some ⟨⟨encB64 (initialCSV.data.map Char.toNat)⟩, srv.ctr, "file"⟩,
        srv.ctr + 1⟩, [.get, .put]) := by
  unfold getCSVContent serverGet createInitialCSV
  rw [if_neg hmiss, if_neg (by simp [hcfg]), hf,
    updateCSVContent_create now hcfg (btoa_isSome (by decide)) hf hsha]
  simp [mapStatus, errMentions404]

/-- A read that misses the cache against an absent file while a token is
still cached fails: the creation PUT carries the stale token. -/
theorem getCSVContent_notFound_stale {s : GHState} {srv : Server} (now : Nat)
    {tok : Nat}
    (hmiss : ¬((!false && truthyStr s.base64Content && truthyNat s.lastFetch &&
      decide (now - s.lastFetch.getD 0 < cacheTimeout)) = true))
    (hcfg : isConfigured s = true) (hf : srv.file = none)
    (hsha : s.sha = some tok) :
    getCSVContent s srv now false =
      (.error (.apiError 422), s, srv, [.get, .put]) := by
  unfold getCSVContent serverGet createInitialCSV updateCSVContent serverPut
  rw [if_neg hmiss, if_neg (by simp [hcfg]), hf,
    btoa_isSome (s := initialCSV) (by decide), hsha]
  simp [hcfg, mapStatus, errMentions404]

/-- C4 (amended): (1) when non-empty cached content exists and was fetched
at a nonzero time less than the timeout ago, a read without `forceRefresh`
returns the decoded cached text, changes nothing, and performs no network
request; (2) a second read within the timeout of a first read that went to
the network and returned non-empty text performs no network request and
returns the same text. -/
theorem c4_read_cache :
    (∀ (s : GHState) (srv : Server) (now : Nat) (b : String) (t : Nat),
      s.base64Content = some b → b ≠ "" → s.lastFetch = some t → t ≠ 0 →
      now - t < cacheTimeout →
      getCSVContent s srv now false = (.ok (atob b), s, srv, [])) ∧
    (∀ (s s₁ : GHState) (srv srv₁ : Server) (now₁ now₂ : Nat) (text : String)
        (reqs : List Req),
      getCSVContent s srv now₁ false = (.ok text, s₁, srv₁, reqs) →
      reqs ≠ [] → text ≠ "" → 0 < now₁ → now₂ - now₁ < cacheTimeout →
      getCSVContent s₁ srv₁ now₂ false = (.ok text, s₁, srv₁, [])) := by
  constructor
  · intro s srv now b t hb hbne hl ht hfresh
    exact getCSVContent_hit srv now hb hbne hl ht hfresh
  · intro s s₁ srv srv₁ now₁ now₂ text reqs h hreqs htext h0 hfresh
    by_cases hhit : (!false && truthyStr s.base64Content && truthyNat s.lastFetch &&
        decide (now₁ - s.lastFetch.getD 0 < cacheTimeout)) = true
    · unfold getCSVContent at h
      rw [if_pos hhit] at h
      simp only [Prod.mk.injEq] at h
      exact absurd h.2.2.2.symm hreqs
    · by_cases hcfg : isConfigured s = true
      · cases hsf : srv.file with
        | some f =>
          by_cases htyp : f.typ = "file"
          · rw [getCSVContent_refetch now₁ hhit hcfg hsf htyp] at h
            simp only [Prod.mk.injEq, Except.ok.injEq] at h
            obtain ⟨htext2, hs1, hsrv1, _⟩ := h
            have hbne : f.enc ≠ "" := by
              intro hcon
              apply htext
              rw [← htext2, hcon]
              rfl
            rw [← hs1, ← htext2]
            exact getCSVContent_hit (b := f.enc) (t := now₁) srv₁ now₂ rfl hbne rfl
              (by omega) hfresh
          · rw [getCSVContent_notAFile now₁ hhit hcfg hsf htyp] at h
            simp only [Prod.mk.injEq] at h
            exact absurd h.1 (by simp)
        | none =>
          cases hsha : s.sha with
          | none =>
            rw [getCSVContent_create now₁ hhit hcfg hsf hsha] at h
            simp only [Prod.mk.injEq, Except.ok.injEq] at h
            obtain ⟨htext2, hs1, hsrv1, _⟩ := h
            subst hs1
            subst htext2
            have hrun := getCSVContent_hit (s := { s with
                base64Content := some ⟨encB64 (initialCSV.data.map Char.toNat)⟩,
                sha := some srv.ctr, lastFetch := some now₁ })
              srv₁ now₂ rfl (by decide) rfl (by omega) hfresh
            rw [hrun, atob_btoa (btoa_isSome (by decide))]
          | some tok =>
            rw [getCSVContent_notFound_stale now₁ hhit hcfg hsf hsha] at h
            simp only [Prod.mk.injEq] at h
            exact absurd h.1 (by simp)
      · unfold getCSVContent at h
        rw [if_neg hhit, if_pos (by simp [Bool.not_eq_true] at hcfg ⊢; simp [hcfg])] at h
        simp only [Prod.mk.injEq] at h
        exact absurd h.1 (by simp)

/-- C4 witness: both amended parts at a concrete client and store. -/
theorem c4_read_cache_witness :
    getCSVContent ⟨"me", "r", some "QQ==", some 3, some 5⟩ ⟨none, 0⟩ 6 false =
      (.ok (atob "QQ=="), ⟨"me", "r", some "QQ==", some 3, some 5⟩, ⟨none, 0⟩, []) ∧
    getCSVContent ⟨"me", "r", some "QQ==", some 0, some 1⟩
        ⟨some ⟨"QQ==", 0, "file"⟩, 1⟩ 2 false =
      (.ok "A", ⟨"me", "r", some "QQ==", some 0, some 1⟩,
       ⟨some ⟨"QQ==", 0, "file"⟩, 1⟩, []) := by
  constructor
  · exact c4_read_cache.1 ⟨"me", "r", some "QQ==", some 3, some 5⟩ ⟨none, 0⟩ 6
      "QQ==" 5 rfl (by decide) rfl (by decide) (by decide)
  · exact c4_read_cache.2 ⟨"me", "r", none, none, none⟩
      ⟨"me", "r", some "QQ==", some 0, some 1⟩ ⟨some ⟨"QQ==", 0, "file"⟩, 1⟩
      ⟨some ⟨"QQ==", 0, "file"⟩, 1⟩ 1 2 "A" [.get] rfl (by decide)
      (by decide) (by decide) (by decide)

/-- `appendEntry` on a cold cache against a stored text: fetch, decode,
append, encode, write with the matching fresh token. -/
theorem appendEntry_spec {s : GHState} {srv : Server} (now : Nat) (e : Obj)
    {content₀ : String} {f₀ : ServerFile} {enc₁ : String}
    (hcfg : isConfigured s = true) (hb : s.base64Content = none)
    (hf : srv.file = some f₀) (htyp : f₀.typ = "file")
    (henc₀ : btoa content₀ = some f₀.enc)
    (henc₁ : btoa (arrayToCSV (csvToArray content₀ ++ [e])) = some enc₁) :
    appendEntry s srv now e =
      (.ok true,
       { s with base64Content := some enc₁, sha := some srv.ctr,
                lastFetch := some now },
       ⟨some ⟨enc₁, srv.ctr, "file"⟩, srv.ctr + 1⟩, [.get, .put]) := by
  unfold appendEntry
  rw [getCSVContent_fetch now hcfg hb hf htyp, atob_btoa henc₀]
  show (match updateCSVContent
      { s with base64Content := some f₀.enc, sha := some f₀.sha,
               lastFetch := some now } srv now
      (arrayToCSV (csvToArray content₀ ++ [e])) with
    | (res, s'', srv'', reqs2) => (res, s'', srv'', [Req.get] ++ reqs2)) = _
  rw [updateCSVContent_ok (f := f₀) now (by simpa [isConfigured] using hcfg)
    henc₁ hf rfl]
  rfl

/-- `deleteEntry` while the cache matches the store: read (hit or refetch),
decode, remove by position, encode, write with the matching fresh token. -/
theorem deleteEntry_spec {s : GHState} {srv : Server} (now : Nat) (index : Nat)
    {content : String} {f : ServerFile} {enc' : String} {deleted : Obj}
    (hcfg : isConfigured s = true)
    (hb : s.base64Content = some f.enc) (hsha : s.sha = some f.sha)
    (hf : srv.file = some f) (htyp : f.typ = "file")
    (henc : btoa content = some f.enc)
    (hget : (csvToArray content).get? index = some deleted)
    (henc' : btoa (arrayToCSV ((csvToArray content).eraseIdx index)) = some enc') :
    ∃ s₂ reqs₂, deleteEntry s srv now index =
      (.ok deleted, s₂, ⟨some ⟨enc', srv.ctr, "file"⟩, srv.ctr + 1⟩, reqs₂) := by
  obtain ⟨s', reqs', hread, hcfg', hsha', hb'⟩ :=
    getCSVContent_synced now hcfg hb hsha hf htyp
  refine ⟨⟨s'.owner, s'.repo, some enc', some srv.ctr, some now⟩,
    reqs' ++ [.put], ?_⟩
  unfold deleteEntry
  rw [hread, atob_btoa henc]
  show (match (csvToArray content).get? index with
    | none => ((.error .typeError : Except GHError Obj), s', srv, reqs')
    | some deleted =>
      match updateCSVContent s' srv now
          (arrayToCSV ((csvToArray content).eraseIdx index)) with
      | (.ok _, s'', srv'', reqs2) => (.ok deleted, s'', srv'', reqs' ++ reqs2)
      | (.error e, s'', srv'', reqs2) =>
        (.error e, s'', srv'', reqs' ++ reqs2)) = _
  rw [hget, updateCSVContent_ok (f := f) now hcfg' henc' hf hsha']

/-- C6 (amended): starting from a cold cache over a stored text with the
canonical header, appending an entry whose field values contain no newline
(and are Latin-1, so the transport encoding accepts them) and then deleting
at the index at which it was appended, with no interleaving writer, leaves
a stored text that re-reads (decodes) to the original collection. -/
theorem c6_append_delete (s : GHState) (srv : Server) (now₁ now₂ : Nat)
    (e : Obj) (content₀ : String) (f₀ : ServerFile)
    (hcfg : isConfigured s = true) (hb : s.base64Content = none)
    (hf : srv.file = some f₀) (htyp : f₀.typ = "file")
    (henc₀ : btoa content₀ = some f₀.enc)
    (hhdr : csvHeadersOf content₀ = CSV_HEADERS)
    (he : ∀ h ∈ CSV_HEADERS, '\n' ∉ (jsGetD e h).data ∧
      ∀ ch ∈ (jsGetD e h).data, ch.toNat < 256) :
    ∃ s₁ srv₁ r₁ s₂ srv₂ r₂ deleted f₂,
      appendEntry s srv now₁ e = (.ok true, s₁, srv₁, r₁) ∧
      deleteEntry s₁ srv₁ now₂ (csvToArray content₀).length =
        (.ok deleted, s₂, srv₂, r₂) ∧
      srv₂.file = some f₂ ∧
      csvToArray (atob f₂.enc) = csvToArray content₀ := by
  have hlat0 : ∀ ch ∈ content₀.data, ch.toNat < 256 := btoa_latin1 henc₀
  have hckeys : ∀ o ∈ csvToArray content₀, o.map Prod.fst = CSV_HEADERS :=
    csvToArray_keys hhdr
  have hcgood := csvToArray_good content₀
  have hcchars := csvToArray_value_chars content₀
  have hcgood3 : ∀ o ∈ csvToArray content₀, ∀ kv ∈ o,
      '"' ∉ (kv.2 : String).data ∧ '\n' ∉ (kv.2 : String).data ∧
      jsTrim kv.2 = kv.2 := by
    intro o ho kv hkv
    exact ⟨(hcgood o ho kv hkv).2.1, (hcgood o ho kv hkv).2.2.1,
      (hcgood o ho kv hkv).2.2.2⟩
  have hheaderlat : ∀ ch ∈ headerLine.data, ch.toNat < 256 := by decide
  have hlat1 : ∀ ch ∈ (arrayToCSV (csvToArray content₀ ++ [e])).data,
      ch.toNat < 256 := by
    intro ch hch
    rcases mem_arrayToCSV hch with hh | rfl | rfl | rfl |
      ⟨row, hrow, hd, hhd, hval⟩
    · exact hheaderlat ch hh
    · decide
    · decide
    · decide
    · rcases List.mem_append.mp hrow with hrowc | hrowe
      · rcases jsGetD_cases row hd with hempty | ⟨kv, hkv, heq⟩
        · rw [hempty] at hval
          cases hval
        · rw [heq] at hval
          exact hlat0 ch (hcchars row hrowc kv hkv ch hval)
      · have hre : row = e := by simpa using hrowe
        subst hre
        exact (he hd hhd).2 ch hval
  have hlat2 : ∀ ch ∈ (arrayToCSV (csvToArray content₀)).data,
      ch.toNat < 256 := by
    intro ch hch
    rcases mem_arrayToCSV hch with hh | rfl | rfl | rfl |
      ⟨row, hrow, hd, hhd, hval⟩
    · exact hheaderlat ch hh
    · decide
    · decide
    · decide
    · rcases jsGetD_cases row hd with hempty | ⟨kv, hkv, heq⟩
      · rw [hempty] at hval
        cases hval
      · rw [heq] at hval
        exact hlat0 ch (hcchars row hrow kv hkv ch hval)
  have henc₁ := btoa_isSome hlat1
  have henc₂ := btoa_isSome hlat2
  have happ := appendEntry_spec now₁ e hcfg hb hf htyp henc₀ henc₁
  have hnl : ∀ row ∈ csvToArray content₀ ++ [e], ∀ h ∈ CSV_HEADERS,
      '\n' ∉ (jsGetD row h).data := by
    intro row hrow h hh
    rcases List.mem_append.mp hrow with hrowc | hrowe
    · rcases jsGetD_cases row h with hempty | ⟨kv, hkv, heq⟩
      · rw [hempty]
        simp
      · rw [heq]
        exact (hcgood row hrowc kv hkv).2.2.1
    · have hre : row = e := by simpa using hrowe
      subst hre
      exact (he h hh).1
  have hdec1 : csvToArray (arrayToCSV (csvToArray content₀ ++ [e])) =
      csvToArray content₀ ++ [buildObj CSV_HEADERS (parseCSVLine ⟨rowLine e⟩)] := by
    rw [csvToArray_arrayToCSV_gen _ hnl, List.map_append]
    congr 1
    rw [List.map_congr_left (fun o ho => decodeRow_id o (hckeys o ho)
      (hcgood3 o ho))]
    exact List.map_id _
  have hget : (csvToArray (arrayToCSV (csvToArray content₀ ++ [e]))).get?
      (csvToArray content₀).length =
      some (buildObj CSV_HEADERS (parseCSVLine ⟨rowLine e⟩)) := by
    rw [hdec1, List.get?_eq_getElem?]
    exact List.getElem?_concat_length _ _
  have herase : (csvToArray (arrayToCSV (csvToArray content₀ ++ [e]))).eraseIdx
      (csvToArray content₀).length = csvToArray content₀ := by
    rw [hdec1]
    exact eraseIdx_concat _ _
  have henc' : btoa (arrayToCSV ((csvToArray (arrayToCSV
      (csvToArray content₀ ++ [e]))).eraseIdx (csvToArray content₀).length)) =
      some ⟨encB64 ((arrayToCSV (csvToArray content₀)).data.map Char.toNat)⟩ := by
    rw [herase]
    exact henc₂
  have hdel := @deleteEntry_spec
    ⟨s.owner, s.repo,
      some ⟨encB64 ((arrayToCSV (csvToArray content₀ ++ [e])).data.map Char.toNat)⟩,
      some srv.ctr, some now₁⟩
    ⟨some ⟨⟨encB64 ((arrayToCSV (csvToArray content₀ ++ [e])).data.map Char.toNat)⟩, srv.ctr, "file"⟩, srv.ctr + 1⟩
    now₂ (csvToArray content₀).length
    (arrayToCSV (csvToArray content₀ ++ [e]))
    ⟨⟨encB64 ((arrayToCSV (csvToArray content₀ ++ [e])).data.map Char.toNat)⟩, srv.ctr, "file"⟩
    ⟨encB64 ((arrayToCSV (csvToArray content₀)).data.map Char.toNat)⟩
    (buildObj CSV_HEADERS (parseCSVLine ⟨rowLine e⟩))
    (by simpa [isConfigured] using hcfg) rfl rfl rfl rfl henc₁ hget henc'
  obtain ⟨s₂, r₂, hdeleq⟩ := hdel
  have hdec2 : csvToArray (arrayToCSV (csvToArray content₀)) =
      csvToArray content₀ :=
    roundtrip_canonical _ hckeys hcgood3
  refine ⟨_, _, _, s₂, _, r₂, _, _, happ, hdeleq, rfl, ?_⟩
  rw [atob_btoa henc₂]
  exact hdec2

/-- An entry whose `Context` value embeds a newline: `arrayToCSV` quotes the
field, but `csvToArray` splits the whole text on newlines before parsing, so
the quoted field is torn across two rows. -/
def c6e : Obj :=
  [("Date", "2024-01-01"), ("Context", "line1\nline2"), ("Project/Task", "Proj"),
   ("Skills & Tools", ""), ("Outcome/Deliverable", ""), ("Time Spent", ""),
   ("Key Learnings/Challenges", ""), ("Next Steps", ""), ("Status", "Completed"),
   ("Tags", "")]

/-- A configured client with a cold cache. -/
def c6s : GHState := ⟨"me", "r", none, none, none⟩

/-- A store holding exactly the header-only initial file. -/
def c6srv : Server := ⟨some ⟨(btoa initialCSV).getD "", 0, "file"⟩, 1⟩

/-- The append of `c6e` to the stored empty collection. -/
def c6step1 := appendEntry c6s c6srv 100 c6e

/-- The subsequent delete at index 0, the index at which `c6e` was appended
(the stored collection decodes to `[]`, of length 0). -/
def c6step2 := deleteEntry c6step1.2.1 c6step1.2.2.1 200 0

/-- C6, counterexample: an entry with canonical keys whose `Context` value
contains a newline is appended to the stored empty collection and then
deleted at the index at which it was appended, with no interleaving writer;
both operations succeed, yet the stored text re-reads to a one-record
collection — not the original empty one — because the quoted newline field
written by `arrayToCSV` is torn apart by the line split of `csvToArray`. -/
theorem c6_roundtrip_counterexample :
    c6e.map Prod.fst = CSV_HEADERS ∧
    (csvToArray initialCSV).length = 0 ∧
    c6step1.1 = .ok true ∧
    (∃ d, c6step2.1 = .ok d) ∧
    ∃ f₂, (c6step2.2.2.1).file = some f₂ ∧
      csvToArray (atob f₂.enc) ≠ csvToArray initialCSV := by
  refine ⟨by decide, rfl, rfl, ⟨_, rfl⟩, _, rfl, by decide⟩

/-- An all-ASCII, newline-free entry for the witness. -/
def c6we : Obj := [("Date", "2024-01-02"), ("Context", "x")]

/-- The stored file of the witness: the header-only initial content. -/
def c6wf : ServerFile := ⟨(btoa initialCSV).getD "", 0, "file"⟩

/-- A configured client with a cold cache for the witness. -/
def c6ws : GHState := ⟨"me", "r", none, none, none⟩

/-- A store holding exactly `c6wf` for the witness. -/
def c6wsrv : Server := ⟨some c6wf, 1⟩

/-- Witness: the amended C6 round trip at the header-only stored file and a
newline-free entry. -/
theorem c6_append_delete_witness :
    ∃ s₁ srv₁ r₁ s₂ srv₂ r₂ deleted f₂,
      appendEntry c6ws c6wsrv 100 c6we = (.ok true, s₁, srv₁, r₁) ∧
      deleteEntry s₁ srv₁ 200 (csvToArray initialCSV).length =
        (.ok deleted, s₂, srv₂, r₂) ∧
      srv₂.file = some f₂ ∧
      csvToArray (atob f₂.enc) = csvToArray initialCSV :=
  c6_append_delete c6ws c6wsrv 100 200 c6we initialCSV c6wf
    (by decide) rfl rfl rfl rfl (by decide) (by decide)

end TrackRecord
